import Mathlib

/-!
Verification of the Hydra mesh integrator (`src/reconstruction/mesh_integrator.cpp`).

The development shallowly embeds the mesh-extraction pipeline: a block-partitioned
TSDF layer, a vertex-marker layer, an optional semantic layer and the mesh store,
together with the operations `generateMesh`, `updateBlockInterior`,
`updateBlockExterior`, `extractMeshInsideBlock`, `extractMeshOnBorder`,
`getNeighborBlockIndex` and `updateMeshColor`.  Machine floats are modelled as
rationals, voxel and block indices as integer triples, and each layer as an
association list keyed by block index.  External collaborators (the voxblox layer
interface, the Marching Cubes kernel and the thread-safe work index) are modelled
from the specification where their sources are not part of the sampled tree.
-/

namespace Hydra

/-- A block index: a 3-tuple of integers identifying a cubic region of space. -/
abbrev BlockIndex := ℤ × ℤ × ℤ

/-- A voxel index within a block; components are integers (they may temporarily
leave `[0, voxels_per_side)` while addressing cube corners on block borders). -/
abbrev VoxelIndex := ℤ × ℤ × ℤ

/-- A world-space point, with rationals standing in for floating point. -/
abbrev Point := ℚ × ℚ × ℚ

/-- A TSDF voxel: signed distance, integration weight and a color payload. -/
structure TsdfVoxel where
  distance : ℚ
  weight : ℚ
  color : ℕ
deriving DecidableEq

/-- The voxel grid of one TSDF block. -/
abbrev TsdfBlock := VoxelIndex → TsdfVoxel

/-- One vertex-marker block: the per-voxel `on_surface` flag.
Modelled from the spec: the Vertex Marker Voxel (spec section 3) is the boolean
"a mesh vertex currently lies near this voxel"; the `places::VertexVoxel` source
is not part of the sampled tree. -/
abbrev VertexBlock := VoxelIndex → Bool

/-- One semantic block: a categorical label per voxel. -/
abbrev SemanticBlock := VoxelIndex → ℕ

/-- The TSDF layer: voxel geometry parameters, the allocated blocks as an
association list, and the per-block "needs remeshing" flags.
Modelled from the spec: the distance-field collaborator (spec section 6) exposes
`listAllocatedBlocks()`, `listBlocksFlagged(kNeedsMesh)`, `hasBlock`,
per-voxel accessors and `clearMeshFlag(index)`; the voxblox layer source is not
part of the sampled tree, so the flag set is kept at layer level. -/
structure TsdfLayer where
  vps : ℕ
  vsize : ℚ
  blocks : List (BlockIndex × TsdfBlock)
  meshFlags : List BlockIndex

/-- A mesh buffer for one block: vertices, triangle indices, per-vertex colors
and the block's "updated" flag. -/
structure Mesh where
  vertices : List Point
  indices : List ℕ
  colors : List ℕ
  updated : Bool
deriving DecidableEq

/-- A mesh-store entry: the mesh plus the optional per-vertex semantic labels. -/
structure MeshBlock where
  mesh : Mesh
  labels : Option (List ℕ)
deriving DecidableEq

/-- The mesh store keyed by block index. -/
abbrev MeshLayer := List (BlockIndex × MeshBlock)

/-- The vertex-marker layer keyed by block index. -/
abbrev VertexLayer := List (BlockIndex × VertexBlock)

/-- The semantic layer keyed by block index. -/
abbrev SemLayer := List (BlockIndex × SemanticBlock)

/-- Integrator configuration: minimum integration weight and thread count. -/
structure MeshIntegratorConfig where
  min_weight : ℚ
  integrator_threads : ℕ

/-- First-match lookup in an association list keyed by block index. -/
def lget {α : Type} : List (BlockIndex × α) → BlockIndex → Option α
  | [], _ => none
  | p :: rest, k => if p.1 = k then some p.2 else lget rest k

/-- Overwrite the value stored at a key (all matching entries), keeping keys. -/
def lsetConst {α : Type} (l : List (BlockIndex × α)) (k : BlockIndex) (v : α) :
    List (BlockIndex × α) :=
  l.map (fun p => if p.1 = k then (p.1, v) else p)

/-- Whether a key is allocated in an association list. -/
def hasKey {α : Type} (l : List (BlockIndex × α)) (k : BlockIndex) : Bool :=
  l.any (fun p => decide (p.1 = k))

/-- Allocate-and-overwrite: fetch-or-allocate the entry at a key and set it to a
given value (the spec's "allocate (or fetch-and-clear)" step instantiated with
the cleared value). -/
def allocSet {α : Type} (l : List (BlockIndex × α)) (k : BlockIndex) (v : α) :
    List (BlockIndex × α) :=
  if hasKey l k then lsetConst l k v else l ++ [(k, v)]

/-- Column `i` of `cube_index_offsets_`: the eight cube-corner offsets. -/
def cubeIndexOffset : Fin 8 → VoxelIndex
  | 0 => (0, 0, 0)
  | 1 => (1, 0, 0)
  | 2 => (1, 1, 0)
  | 3 => (0, 1, 0)
  | 4 => (0, 0, 1)
  | 5 => (1, 0, 1)
  | 6 => (1, 1, 1)
  | 7 => (0, 1, 1)

/-- The voxel index of cube corner `i` of the cell at `index`. -/
def cornerVoxelIndex (index : VoxelIndex) (i : Fin 8) : VoxelIndex :=
  index + cubeIndexOffset i

/-- Validity of a voxel index within a block (`Block::isValidVoxelIndex`). -/
def isValidVoxelIndex (vps : ℕ) (v : VoxelIndex) : Prop :=
  0 ≤ v.1 ∧ v.1 < (vps : ℤ) ∧ 0 ≤ v.2.1 ∧ v.2.1 < (vps : ℤ) ∧
    0 ≤ v.2.2 ∧ v.2.2 < (vps : ℤ)

instance (vps : ℕ) (v : VoxelIndex) : Decidable (isValidVoxelIndex vps v) := by
  unfold isValidVoxelIndex; infer_instance

/-- Validity of a distance voxel for geometry use.
Modelled from the spec: a distance voxel is "valid for geometry use only if
weight is at least a configured minimum" (spec section 3); the voxblox
`getSdfIfValid` source is not part of the sampled tree. -/
def sdfValid (cfg : MeshIntegratorConfig) (v : TsdfVoxel) : Prop :=
  cfg.min_weight ≤ v.weight

instance (cfg : MeshIntegratorConfig) (v : TsdfVoxel) : Decidable (sdfValid cfg v) := by
  unfold sdfValid; infer_instance

/-- Wrap one component of a corner index that fell outside `[0, vps)`, returning
the block offset together with the wrapped component
(one axis of `MeshIntegrator::getNeighborBlockIndex`). -/
def wrapComponent (vps : ℕ) (c : ℤ) : ℤ × ℤ :=
  if c < 0 then (-1, c + vps)
  else if (vps : ℤ) ≤ c then (1, c - vps)
  else (0, c)

/-- `MeshIntegrator::getNeighborBlockIndex`: offset the block index by -1/+1 per
axis where the corner index fell outside `[0, vps)`, wrapping the corner index
back into range.  Returns the neighbor block index and the wrapped corner. -/
def getNeighborBlockIndex (block_idx : BlockIndex) (corner : VoxelIndex) (vps : ℕ) :
    BlockIndex × VoxelIndex :=
  let wx := wrapComponent vps corner.1
  let wy := wrapComponent vps corner.2.1
  let wz := wrapComponent vps corner.2.2
  ((block_idx.1 + wx.1, block_idx.2.1 + wy.1, block_idx.2.2 + wz.1),
   (wx.2, wy.2, wz.2))

/-- Cast a voxel index to a rational point. -/
def intPoint (v : VoxelIndex) : Point := ((v.1 : ℚ), (v.2.1 : ℚ), (v.2.2 : ℚ))

/-- Pointwise sum of two points. -/
def paddp (a b : Point) : Point := (a.1 + b.1, a.2.1 + b.2.1, a.2.2 + b.2.2)

/-- Pointwise difference of two points. -/
def psub (a b : Point) : Point := (a.1 - b.1, a.2.1 - b.2.1, a.2.2 - b.2.2)

/-- Scale a point by a rational. -/
def pscale (t : ℚ) (a : Point) : Point := (t * a.1, t * a.2.1, t * a.2.2)

/-- `Block::computeCoordinatesFromVoxelIndex`: the center point of a voxel,
`origin + (index + 1/2) * voxel_size` with `origin = block_index * vps * vsize`. -/
def computeCoordinatesFromVoxelIndex (b : BlockIndex) (vps : ℕ) (vsize : ℚ)
    (v : VoxelIndex) : Point :=
  paddp (pscale ((vps : ℚ) * vsize) (intPoint b))
    (pscale vsize (paddp (intPoint v) (1/2, 1/2, 1/2)))

/-- `Block::computeVoxelIndexFromCoordinates`: floor of the local offset divided
by the voxel size, per component. -/
def computeVoxelIndexFromCoordinates (b : BlockIndex) (vps : ℕ) (vsize : ℚ)
    (p : Point) : VoxelIndex :=
  let o := pscale ((vps : ℚ) * vsize) (intPoint b)
  (((p.1 - o.1) / vsize).floor, ((p.2.1 - o.2.1) / vsize).floor,
   ((p.2.2 - o.2.2) / vsize).floor)

/-- `Layer::getBlockPtrByCoordinates` index computation: the block containing a
world point. -/
def blockIndexFromPoint (vps : ℕ) (vsize : ℚ) (p : Point) : BlockIndex :=
  ((p.1 / ((vps : ℚ) * vsize)).floor, (p.2.1 / ((vps : ℚ) * vsize)).floor,
   (p.2.2 / ((vps : ℚ) * vsize)).floor)

/-- Column `i` of `cube_coord_offsets_`: corner offsets scaled by voxel size. -/
def cubeCoordOffset (vsize : ℚ) (i : Fin 8) : Point :=
  pscale vsize (intPoint (cubeIndexOffset i))

/-- The twelve cube edges as corner pairs, in the standard Marching Cubes order.
Modelled from the spec: the Cube Sampler's "fixed corner ordering shared with a
lookup table" (spec section 4.2); the kernel source is not part of the sampled
tree. -/
def cubeEdges : List (Fin 8 × Fin 8) :=
  [(0, 1), (1, 2), (2, 3), (3, 0), (4, 5), (5, 6), (6, 7), (7, 4),
   (0, 4), (1, 5), (2, 6), (3, 7)]

/-- Sign classification of a corner distance sample (negative side of surface). -/
def signBit (d : ℚ) : Bool := decide (d < 0)

/-- The edges of the cell crossed by the zero isosurface, in fixed order.
Modelled from the spec: the Cube Sampler classifies the sign configuration of
the 8 corner distances and reads a fixed edge list off it (spec section 4.2);
the 256-entry triangulation table is an external constant no claim depends on,
so the configuration is represented by the crossing edges it selects. -/
def crossingEdges (sdf : Fin 8 → ℚ) : List (Fin 8 × Fin 8) :=
  cubeEdges.filter (fun e => decide (signBit (sdf e.1) ≠ signBit (sdf e.2)))

/-- Linear interpolation of the zero crossing along one edge,
`t = d0 / (d0 - d1)` (spec section 4.2). -/
def interpVertex (coords : Fin 8 → Point) (sdf : Fin 8 → ℚ)
    (e : Fin 8 × Fin 8) : Point :=
  let t := sdf e.1 / (sdf e.1 - sdf e.2)
  paddp (coords e.1) (pscale t (psub (coords e.2) (coords e.1)))

/-- The edge corner nearer to the surface (smaller absolute distance). -/
def nearCorner (sdf : Fin 8 → ℚ) (e : Fin 8 × Fin 8) : Fin 8 :=
  if |sdf e.1| ≤ |sdf e.2| then e.1 else e.2

/-- Set one marker voxel of a vertex-marker block to true. -/
def markVoxel (vb : VertexBlock) (v : VoxelIndex) : VertexBlock :=
  Function.update vb v true

/-- The Cube Sampler (`MarchingCubes::meshCube`).
Modelled from the spec: the kernel source is not part of the sampled tree.  Per
spec section 4.2 it deterministically emits one interpolated vertex per crossing
edge, appends each vertex together with its running index (advancing the
counter), and marks the nearer corner's vertex-marker voxel whenever a marker
reference is present; absent (`none`) marker references are never written. -/
def meshCube (coords : Fin 8 → Point) (sdf : Fin 8 → ℚ) (next : ℕ) (mesh : Mesh)
    (markers : Fin 8 → Option VoxelIndex) (vb : VertexBlock) :
    ℕ × Mesh × VertexBlock :=
  let ces := crossingEdges sdf
  let vs := ces.map (interpVertex coords sdf)
  let mesh2 := { mesh with
    vertices := mesh.vertices ++ vs,
    indices := mesh.indices ++ (List.range vs.length).map (fun j => j + next) }
  let vb2 := ces.foldl (fun acc e =>
    match markers (nearCorner sdf e) with
    | some vi => markVoxel acc vi
    | none => acc) vb
  (next + vs.length, mesh2, vb2)

/-- The corner-collection phase of `MeshIntegrator::extractMeshInsideBlock`:
read the 8 corner voxels of a cell wholly inside one block; if any corner is
invalid (insufficient weight), the cell aborts (`none`). -/
def collectInterior (cfg : MeshIntegratorConfig) (blk : TsdfBlock)
    (index : VoxelIndex) : Option (Fin 8 → ℚ) :=
  if h : ∀ i : Fin 8, sdfValid cfg (blk (cornerVoxelIndex index i))
  then some (fun i => (blk (cornerVoxelIndex index i)).distance)
  else none

/-- `MeshIntegrator::extractMeshInsideBlock`: collect the 8 corners of an
interior cell and run the Cube Sampler; on any invalid corner the cell is
skipped and mesh, counter and marker block are returned unchanged.  Marker
references are passed for all 8 corners (they all lie in the current block). -/
def extractMeshInsideBlock (cfg : MeshIntegratorConfig) (vsize : ℚ)
    (blk : TsdfBlock) (index : VoxelIndex) (point : Point)
    (acc : ℕ × Mesh × VertexBlock) : ℕ × Mesh × VertexBlock :=
  match collectInterior cfg blk index with
  | none => acc
  | some sdf =>
      meshCube (fun i => paddp point (cubeCoordOffset vsize i)) sdf
        acc.1 acc.2.1 (fun i => some (cornerVoxelIndex index i)) acc.2.2

/-- The TSDF voxel consulted for corner `i` of a border cell: the local voxel if
the corner index is valid, otherwise the neighbor block's voxel at the wrapped
index (`none` when that neighbor block is not allocated). -/
def borderCornerVoxel (vps : ℕ) (sdfBlocks : List (BlockIndex × TsdfBlock))
    (block_idx : BlockIndex) (blk : TsdfBlock) (index : VoxelIndex)
    (i : Fin 8) : Option TsdfVoxel :=
  let ci := cornerVoxelIndex index i
  if isValidVoxelIndex vps ci then some (blk ci)
  else
    let nw := getNeighborBlockIndex block_idx ci vps
    (lget sdfBlocks nw.1).map (fun nb => nb nw.2)

/-- The corner-collection phase of `MeshIntegrator::extractMeshOnBorder` at one
corner: the consulted voxel's distance together with the marker reference
(present only for corners inside the current block; the cross-block marker
write is intentionally disabled in the source).  `none` when the needed
neighbor block is missing or the consulted voxel has insufficient weight. -/
def borderCornerData (cfg : MeshIntegratorConfig) (vps : ℕ)
    (sdfBlocks : List (BlockIndex × TsdfBlock)) (block_idx : BlockIndex)
    (blk : TsdfBlock) (index : VoxelIndex) (i : Fin 8) :
    Option (ℚ × Option VoxelIndex) :=
  let ci := cornerVoxelIndex index i
  match borderCornerVoxel vps sdfBlocks block_idx blk index i with
  | none => none
  | some vox =>
      if sdfValid cfg vox then
        some (vox.distance, if isValidVoxelIndex vps ci then some ci else none)
      else none

/-- `MeshIntegrator::extractMeshOnBorder`: collect the 8 corners of a border
cell (reaching into neighbor blocks where needed) and run the Cube Sampler; if
any corner aborts (missing neighbor block or insufficient weight) the cell is
skipped and mesh, counter and marker block are returned unchanged. -/
def extractMeshOnBorder (cfg : MeshIntegratorConfig) (vps : ℕ) (vsize : ℚ)
    (sdfBlocks : List (BlockIndex × TsdfBlock)) (block_idx : BlockIndex)
    (blk : TsdfBlock) (index : VoxelIndex) (point : Point)
    (acc : ℕ × Mesh × VertexBlock) : ℕ × Mesh × VertexBlock :=
  if h : ∀ i : Fin 8,
      (borderCornerData cfg vps sdfBlocks block_idx blk index i).isSome then
    meshCube (fun i => paddp point (cubeCoordOffset vsize i))
      (fun i => ((borderCornerData cfg vps sdfBlocks block_idx blk index i).get
        (h i)).1)
      acc.1 acc.2.1
      (fun i => ((borderCornerData cfg vps sdfBlocks block_idx blk index i).get
        (h i)).2)
      acc.2.2
  else acc

/-- The cells visited by `MeshIntegrator::updateBlockInterior`: the triple loop
over `[0, vps - 1)` in x (outer), y, z (inner). -/
def interiorCells (vps : ℕ) : List VoxelIndex :=
  (List.range (vps - 1)).flatMap (fun (x : ℕ) =>
    (List.range (vps - 1)).flatMap (fun (y : ℕ) =>
      (List.range (vps - 1)).map (fun (z : ℕ) => ((x : ℤ), (y : ℤ), (z : ℤ)))))

/-- The max-X face loop of `MeshIntegrator::updateBlockExterior`: `x = vps - 1`,
full z (outer) and y (inner) ranges. -/
def maxXFaceCells (vps : ℕ) : List VoxelIndex :=
  (List.range vps).flatMap (fun (z : ℕ) =>
    (List.range vps).map (fun (y : ℕ) => ((vps : ℤ) - 1, (y : ℤ), (z : ℤ))))

/-- The max-Y face loop of `MeshIntegrator::updateBlockExterior`: `y = vps - 1`,
full z range, x range excluding `x = vps - 1`. -/
def maxYFaceCells (vps : ℕ) : List VoxelIndex :=
  (List.range vps).flatMap (fun (z : ℕ) =>
    (List.range (vps - 1)).map (fun (x : ℕ) => ((x : ℤ), (vps : ℤ) - 1, (z : ℤ))))

/-- The max-Z face loop of `MeshIntegrator::updateBlockExterior`: `z = vps - 1`,
y and x ranges both excluding their maximum. -/
def maxZFaceCells (vps : ℕ) : List VoxelIndex :=
  (List.range (vps - 1)).flatMap (fun (y : ℕ) =>
    (List.range (vps - 1)).map (fun (x : ℕ) => ((x : ℤ), (y : ℤ), (vps : ℤ) - 1)))

/-- All cells visited by the exterior pass for one block, in loop order. -/
def exteriorCells (vps : ℕ) : List VoxelIndex :=
  maxXFaceCells vps ++ maxYFaceCells vps ++ maxZFaceCells vps

/-- The voxel consulted when painting one mesh vertex
(`MeshIntegrator::updateMeshColor` loop body): convert the vertex position back
to a voxel index in the current block; if out of range, fall back to a direct
coordinate lookup against whichever block contains the position.  Returns the
distance voxel and, when a semantic layer is configured, the semantic label. -/
def vertexVoxelLookup (vps : ℕ) (vsize : ℚ)
    (sdfBlocks : List (BlockIndex × TsdfBlock)) (sem : Option SemLayer)
    (blk : TsdfBlock) (block_idx : BlockIndex) (p : Point) :
    Option TsdfVoxel × Option ℕ :=
  let vi := computeVoxelIndexFromCoordinates block_idx vps vsize p
  if isValidVoxelIndex vps vi then
    (some (blk vi),
      match sem with
      | none => none
      | some semL => (lget semL block_idx).map (fun sb => sb vi))
  else
    let nbIdx := blockIndexFromPoint vps vsize p
    let nvi := computeVoxelIndexFromCoordinates nbIdx vps vsize p
    ((lget sdfBlocks nbIdx).map (fun nb => nb nvi),
      match sem with
      | none => none
      | some semL => (lget semL nbIdx).map (fun sb => sb nvi))

/-- Color derived from a consulted voxel (voxblox `getColorIfValid`).
Modelled from the spec: a distance-to-color mapping applied only when the
voxel's weight reaches the configured minimum, the default color otherwise
(spec section 4.4); the utility source is not part of the sampled tree. -/
def colorIfValid (cfg : MeshIntegratorConfig) (vox : Option TsdfVoxel) : ℕ :=
  match vox with
  | some v => if sdfValid cfg v then v.color else 0
  | none => 0

/-- `std::vector::resize` on a label vector: truncate or zero-extend. -/
def vecResize (l : List ℕ) (n : ℕ) : List ℕ :=
  l.take n ++ List.replicate (n - l.length) 0

/-- `MeshIntegrator::updateMeshColor`: clear and resize the colors to
`indices.size()`, resize the semantic label vector likewise, then for every
vertex `i` write the color (and, when configured and found, the label) computed
by the nearest-voxel lookup at position `i`. -/
def updateMeshColor (cfg : MeshIntegratorConfig) (vps : ℕ) (vsize : ℚ)
    (sdfBlocks : List (BlockIndex × TsdfBlock)) (sem : Option SemLayer)
    (blk : TsdfBlock) (block_idx : BlockIndex) (entry : MeshBlock) : MeshBlock :=
  let n := entry.mesh.indices.length
  let colors1 := (List.range entry.mesh.vertices.length).foldl (fun acc i =>
    match entry.mesh.vertices[i]? with
    | none => acc
    | some p =>
        acc.set i (colorIfValid cfg
          (vertexVoxelLookup vps vsize sdfBlocks sem blk block_idx p).1))
    (List.replicate n 0)
  match sem with
  | none => { entry with mesh := { entry.mesh with colors := colors1 } }
  | some _ =>
      let labels1 := (List.range entry.mesh.vertices.length).foldl (fun acc i =>
        match entry.mesh.vertices[i]? with
        | none => acc
        | some p =>
            match (vertexVoxelLookup vps vsize sdfBlocks sem blk block_idx p).2 with
            | some lab => acc.set i lab
            | none => acc)
        (vecResize (entry.labels.getD []) n)
      { mesh := { entry.mesh with colors := colors1 }, labels := some labels1 }

/-- The interior cell loop of `MeshIntegrator::updateBlockInterior` for one
block, threading the running counter, the mesh buffer and the marker block. -/
def interiorRun (cfg : MeshIntegratorConfig) (vps : ℕ) (vsize : ℚ)
    (blk : TsdfBlock) (b : BlockIndex) (init : ℕ × Mesh × VertexBlock) :
    ℕ × Mesh × VertexBlock :=
  (interiorCells vps).foldl (fun acc cell =>
    extractMeshInsideBlock cfg vsize blk cell
      (computeCoordinatesFromVoxelIndex b vps vsize cell) acc) init

/-- The three face loops of `MeshIntegrator::updateBlockExterior` for one
block, threading the running counter, the mesh buffer and the marker block. -/
def exteriorRun (cfg : MeshIntegratorConfig) (vps : ℕ) (vsize : ℚ)
    (sdfBlocks : List (BlockIndex × TsdfBlock)) (blk : TsdfBlock)
    (b : BlockIndex) (init : ℕ × Mesh × VertexBlock) :
    ℕ × Mesh × VertexBlock :=
  (exteriorCells vps).foldl (fun acc cell =>
    extractMeshOnBorder cfg vps vsize sdfBlocks b blk cell
      (computeCoordinatesFromVoxelIndex b vps vsize cell) acc) init

/-- `MeshIntegrator::updateBlockInterior` lifted to the layers: fetch the mesh
entry, the SDF block and the marker block, run the interior cell loop from
vertex counter 0, and write the results back. -/
def interiorStep (cfg : MeshIntegratorConfig) (vps : ℕ) (vsize : ℚ)
    (sdfBlocks : List (BlockIndex × TsdfBlock))
    (p : MeshLayer × VertexLayer) (b : BlockIndex) : MeshLayer × VertexLayer :=
  match lget p.1 b, lget sdfBlocks b, lget p.2 b with
  | some entry, some blk, some vb =>
      let r := interiorRun cfg vps vsize blk b (0, entry.mesh, vb)
      (lsetConst p.1 b { entry with mesh := r.2.1 }, lsetConst p.2 b r.2.2)
  | _, _, _ => p

/-- `MeshIntegrator::updateBlockExterior` lifted to the layers: run the three
face loops from vertex counter `mesh.size()`, paint colors and labels, set the
mesh block's updated flag, and write the results back. -/
def exteriorStep (cfg : MeshIntegratorConfig) (vps : ℕ) (vsize : ℚ)
    (sdfBlocks : List (BlockIndex × TsdfBlock)) (sem : Option SemLayer)
    (p : MeshLayer × VertexLayer) (b : BlockIndex) : MeshLayer × VertexLayer :=
  match lget p.1 b, lget sdfBlocks b, lget p.2 b with
  | some entry, some blk, some vb =>
      let r := exteriorRun cfg vps vsize sdfBlocks blk b
        (entry.mesh.vertices.length, entry.mesh, vb)
      let e2 := updateMeshColor cfg vps vsize sdfBlocks sem blk b
        { entry with mesh := r.2.1 }
      let e3 : MeshBlock := { e2 with mesh := { e2.mesh with updated := true } }
      (lsetConst p.1 b e3, lsetConst p.2 b r.2.2)
  | _, _, _ => p

/-- The cleared mesh-store entry installed for every candidate block before the
interior pass (`allocateBlock` followed by `Mesh::clear`). -/
def clearedMeshEntry (hasSem : Bool) : MeshBlock :=
  { mesh := { vertices := [], indices := [], colors := [], updated := false },
    labels := if hasSem then some [] else none }

/-- A vertex-marker block with every voxel's `on_surface` flag false. -/
def emptyVertexBlock : VertexBlock := fun _ => false

/-- Step 2 of `MeshIntegrator::generateMesh` for one candidate block: allocate
(or fetch and clear) the mesh entry, and allocate the marker block with every
voxel's flag reset to false. -/
def setupStep (hasSem : Bool) (p : MeshLayer × VertexLayer) (b : BlockIndex) :
    MeshLayer × VertexLayer :=
  (allocSet p.1 b (clearedMeshEntry hasSem), allocSet p.2 b emptyVertexBlock)

/-- The whole setup loop of `MeshIntegrator::generateMesh` over the candidate
blocks, run before the interior pass starts. -/
def setupPhase (hasSem : Bool) (p : MeshLayer × VertexLayer)
    (bs : List BlockIndex) : MeshLayer × VertexLayer :=
  bs.foldl (setupStep hasSem) p

/-- `Block::updated().reset(kMesh)` at layer level: drop one block's flag. -/
def clearMeshFlag (L : TsdfLayer) (b : BlockIndex) : TsdfLayer :=
  { L with meshFlags := L.meshFlags.filter (fun x => decide (x ≠ b)) }

/-- Candidate-block selection of `MeshIntegrator::generateMesh`: the blocks
flagged as needing remeshing, or all allocated blocks. -/
def candidateBlocks (L : TsdfLayer) (only_updated : Bool) : List BlockIndex :=
  if only_updated then L.meshFlags else L.blocks.map Prod.fst

/-- The mutable state seen by the mesh integrator. -/
structure IntState where
  sdf : TsdfLayer
  vertex : VertexLayer
  mesh : MeshLayer

/-- `MeshIntegrator::generateMesh`: select candidates, allocate/clear their mesh
entries and reset their marker blocks, run the interior pass over every
candidate, then the exterior pass (which also paints colors and labels), then
clear the candidates' needs-remeshing flags when requested.  The two thread-pool
phases are modelled as sequential folds over the candidate list: each phase
processes each listed block exactly once (the work-queue property), and blocks
are disjoint units of work. -/
def generateMesh (cfg : MeshIntegratorConfig) (sem : Option SemLayer)
    (st : IntState) (only_updated clear_flag : Bool) : IntState :=
  let bs := candidateBlocks st.sdf only_updated
  let p1 := setupPhase sem.isSome (st.mesh, st.vertex) bs
  let p2 := bs.foldl (interiorStep cfg st.sdf.vps st.sdf.vsize st.sdf.blocks) p1
  let p3 := bs.foldl
    (exteriorStep cfg st.sdf.vps st.sdf.vsize st.sdf.blocks sem) p2
  { sdf := if clear_flag then bs.foldl clearMeshFlag st.sdf else st.sdf,
    vertex := p3.2, mesh := p3.1 }

/-- One step of the shared thread-safe work cursor.
Modelled from the spec: the `MixedThreadSafeIndex` dispenser (spec section 9) is
"a monotonically advancing claim ticket over a fixed list"; its voxblox source
is not part of the sampled tree.  `total` is the block-list length; an event by
worker `w` atomically claims the current counter value when work remains. -/
def dispStep (total : ℕ) (s : ℕ × List (ℕ × ℕ)) (w : ℕ) : ℕ × List (ℕ × ℕ) :=
  if s.1 < total then (s.1 + 1, s.2 ++ [(w, s.1)]) else s

/-- Run an arbitrary interleaving of worker polls against the shared cursor:
`sched` lists which worker polls at each step; the result is the (worker, index)
claim events in order. -/
def runSchedule (total : ℕ) (sched : List ℕ) : List (ℕ × ℕ) :=
  (sched.foldl (dispStep total) (0, [])).2

/-- Relation between two association lists: same keys position by position, and
equal values at every position whose key is not a candidate block. -/
def KeyRel {α : Type} (bs : List BlockIndex) (p q : BlockIndex × α) : Prop :=
  p.1 = q.1 ∧ (p.1 ∉ bs → p.2 = q.2)

/-- The single-layer content of the setup loop: allocate-and-overwrite a fixed
cleared value at every candidate block in order. -/
def allocFold {α : Type} (cl : α) (X : List (BlockIndex × α))
    (bs : List BlockIndex) : List (BlockIndex × α) :=
  bs.foldl (fun A b => allocSet A b cl) X

/-- The semantic label consulted for one mesh vertex during color painting. -/
def vertexSemanticLabel (vps : ℕ) (vsize : ℚ)
    (sdfBlocks : List (BlockIndex × TsdfBlock)) (sem : Option SemLayer)
    (blk : TsdfBlock) (block_idx : BlockIndex) (p : Point) : Option ℕ :=
  (vertexVoxelLookup vps vsize sdfBlocks sem blk block_idx p).2

/-! ### Association-list lemmas -/

theorem lget_lsetConst_ne {α : Type} (l : List (BlockIndex × α)) {c b : BlockIndex}
    (v : α) (hne : c ≠ b) : lget (lsetConst l c v) b = lget l b := by
  induction l with
  | nil => rfl
  | cons p rest ih =>
      simp only [lsetConst, List.map_cons] at *
      by_cases hp : p.1 = c
      · have hpb : p.1 ≠ b := by rw [hp]; exact hne
        simp [lget, hp, hpb, hne, ih]
      · by_cases hb : p.1 = b
        · have hbc : ¬b = c := by rw [← hb]; exact hp
          simp [lget, hp, hb, hbc]
        · simp [lget, hp, hb, ih]

theorem lget_lsetConst_self {α : Type} (l : List (BlockIndex × α)) {b : BlockIndex}
    (v : α) (h : hasKey l b = true) : lget (lsetConst l b v) b = some v := by
  induction l with
  | nil => simp [hasKey] at h
  | cons p rest ih =>
      simp only [lsetConst, List.map_cons, lget]
      by_cases hp : p.1 = b
      · simp [hp, lget]
      · simp only [if_neg hp, lget, if_neg hp]
        apply ih
        simp only [hasKey, List.any_cons, Bool.or_eq_true, decide_eq_true_eq] at h
        rcases h with h | h
        · exact absurd h hp
        · simpa [hasKey] using h

theorem hasKey_lsetConst {α : Type} (l : List (BlockIndex × α)) (c b : BlockIndex)
    (v : α) : hasKey (lsetConst l c v) b = hasKey l b := by
  induction l with
  | nil => rfl
  | cons p rest ih =>
      simp only [lsetConst, List.map_cons, hasKey, List.any_cons]
      by_cases hp : p.1 = c
      · simp only [if_pos hp, hp]
        simpa [hasKey, lsetConst] using congrArg (decide (c = b) || ·) ih
      · simp only [if_neg hp]
        simpa [hasKey, lsetConst] using congrArg (decide (p.1 = b) || ·) ih

theorem lget_eq_none_of_not_hasKey {α : Type} (l : List (BlockIndex × α))
    {b : BlockIndex} (h : hasKey l b = false) : lget l b = none := by
  induction l with
  | nil => rfl
  | cons p rest ih =>
      simp only [hasKey, List.any_cons, Bool.or_eq_false_iff,
        decide_eq_false_iff_not] at h
      simp only [lget, if_neg h.1]
      exact ih (by simpa [hasKey] using h.2)

theorem lget_append_single_ne {α : Type} (l : List (BlockIndex × α))
    {c b : BlockIndex} (v : α) (hne : c ≠ b) :
    lget (l ++ [(c, v)]) b = lget l b := by
  induction l with
  | nil => simp [lget, hne]
  | cons p rest ih =>
      simp only [List.cons_append, lget]
      by_cases hb : p.1 = b
      · simp [hb]
      · simp only [if_neg hb]
        exact ih

theorem lget_allocSet_self {α : Type} (l : List (BlockIndex × α)) (b : BlockIndex)
    (v : α) : lget (allocSet l b v) b = some v := by
  unfold allocSet
  by_cases h : hasKey l b
  · rw [if_pos h]
    exact lget_lsetConst_self l v h
  · rw [if_neg h]
    have hnone : lget l b = none :=
      lget_eq_none_of_not_hasKey l (Bool.of_not_eq_true h)
    induction l with
    | nil => simp [lget]
    | cons p rest ih =>
        simp only [lget] at hnone ⊢
        by_cases hp : p.1 = b
        · rw [if_pos hp] at hnone; exact absurd hnone (by simp)
        · rw [if_neg hp] at hnone ⊢
          exact ih (by
            simp only [hasKey, List.any_cons, Bool.or_eq_true] at h
            intro hc
            exact h (Or.inr (by simpa [hasKey] using hc))) hnone

theorem lget_allocSet_ne {α : Type} (l : List (BlockIndex × α)) {c b : BlockIndex}
    (v : α) (hne : c ≠ b) : lget (allocSet l c v) b = lget l b := by
  unfold allocSet
  by_cases h : hasKey l c
  · rw [if_pos h]; exact lget_lsetConst_ne l v hne
  · rw [if_neg h]; exact lget_append_single_ne l v hne

theorem hasKey_append_single {α : Type} (l : List (BlockIndex × α))
    (c b : BlockIndex) (v : α) :
    hasKey (l ++ [(c, v)]) b = (hasKey l b || decide (c = b)) := by
  simp [hasKey]

theorem hasKey_allocSet_self {α : Type} (l : List (BlockIndex × α))
    (b : BlockIndex) (v : α) : hasKey (allocSet l b v) b = true := by
  unfold allocSet
  by_cases h : hasKey l b
  · rw [if_pos h, hasKey_lsetConst]; exact h
  · rw [if_neg h, hasKey_append_single]; simp

theorem hasKey_allocSet_mono {α : Type} (l : List (BlockIndex × α))
    (c b : BlockIndex) (v : α) (h : hasKey l b = true) :
    hasKey (allocSet l c v) b = true := by
  unfold allocSet
  by_cases hc : hasKey l c
  · rw [if_pos hc, hasKey_lsetConst]; exact h
  · rw [if_neg hc, hasKey_append_single, h]; rfl

/-! ### C10: corner wrapping stays in range -/

/-- C10: for every cell of the exterior pass (coordinates in `[0, vps)` with at
least one coordinate equal to `vps - 1`) and every cube-corner offset, the
corner index wrapped by `getNeighborBlockIndex` has every component in
`[0, vps)`, so the neighbor block's voxel-index validity check never fails. -/
theorem wrapComponent_mem (vps : ℕ) (hvps : 1 ≤ vps) (c : ℤ) (h0 : 0 ≤ c)
    (h1 : c ≤ (vps : ℤ)) :
    0 ≤ (wrapComponent vps c).2 ∧ (wrapComponent vps c).2 < (vps : ℤ) := by
  unfold wrapComponent
  split_ifs <;> constructor <;> simp only [] <;> omega

theorem getNeighborBlockIndex_snd (b : BlockIndex) (c : VoxelIndex) (vps : ℕ) :
    (getNeighborBlockIndex b c vps).2 =
      ((wrapComponent vps c.1).2, (wrapComponent vps c.2.1).2,
        (wrapComponent vps c.2.2).2) := rfl

theorem neighbor_corner_index_valid (vps : ℕ) (hvps : 1 ≤ vps)
    (block_idx : BlockIndex) (index : VoxelIndex)
    (hx : 0 ≤ index.1 ∧ index.1 < (vps : ℤ))
    (hy : 0 ≤ index.2.1 ∧ index.2.1 < (vps : ℤ))
    (hz : 0 ≤ index.2.2 ∧ index.2.2 < (vps : ℤ))
    (hmax : index.1 = (vps : ℤ) - 1 ∨ index.2.1 = (vps : ℤ) - 1 ∨
      index.2.2 = (vps : ℤ) - 1) (i : Fin 8) :
    isValidVoxelIndex vps
      (getNeighborBlockIndex block_idx (cornerVoxelIndex index i) vps).2 := by
  have hoff : 0 ≤ (cubeIndexOffset i).1 ∧ (cubeIndexOffset i).1 ≤ 1 ∧
      0 ≤ (cubeIndexOffset i).2.1 ∧ (cubeIndexOffset i).2.1 ≤ 1 ∧
      0 ≤ (cubeIndexOffset i).2.2 ∧ (cubeIndexOffset i).2.2 ≤ 1 := by
    fin_cases i <;> decide
  have hc1 : (cornerVoxelIndex index i).1 = index.1 + (cubeIndexOffset i).1 := rfl
  have hc2 : (cornerVoxelIndex index i).2.1 =
    index.2.1 + (cubeIndexOffset i).2.1 := rfl
  have hc3 : (cornerVoxelIndex index i).2.2 =
    index.2.2 + (cubeIndexOffset i).2.2 := rfl
  have b1 : 0 ≤ (cornerVoxelIndex index i).1 ∧
      (cornerVoxelIndex index i).1 ≤ (vps : ℤ) := by rw [hc1]; omega
  have b2 : 0 ≤ (cornerVoxelIndex index i).2.1 ∧
      (cornerVoxelIndex index i).2.1 ≤ (vps : ℤ) := by rw [hc2]; omega
  have b3 : 0 ≤ (cornerVoxelIndex index i).2.2 ∧
      (cornerVoxelIndex index i).2.2 ≤ (vps : ℤ) := by rw [hc3]; omega
  have w1 := wrapComponent_mem vps hvps _ b1.1 b1.2
  have w2 := wrapComponent_mem vps hvps _ b2.1 b2.2
  have w3 := wrapComponent_mem vps hvps _ b3.1 b3.2
  rw [getNeighborBlockIndex_snd]
  exact ⟨w1.1, w1.2, w2.1, w2.2, w3.1, w3.2⟩

/-- Witness for C10 at a concrete input. -/
theorem neighbor_corner_index_valid_witness :
    isValidVoxelIndex 4
      (getNeighborBlockIndex (0, 0, 0) (cornerVoxelIndex (3, 1, 2) 1) 4).2 :=
  neighbor_corner_index_valid 4 (by decide) (0, 0, 0) (3, 1, 2)
    (by constructor <;> decide) (by constructor <;> decide)
    (by constructor <;> decide) (Or.inl (by decide)) 1

/-! ### C3: a low-weight corner skips the whole cell -/

/-- C3: whenever any of a cell's 8 corner distance voxels has integration
weight below `min_weight`, both the interior and the border extraction return
early, leaving the mesh, the running vertex counter and the marker block
unchanged (for a border cell the consulted voxel may live in a neighbor
block). -/
theorem low_weight_corner_skips_cell (cfg : MeshIntegratorConfig) (vps : ℕ)
    (vsize : ℚ) (sdfBlocks : List (BlockIndex × TsdfBlock))
    (block_idx : BlockIndex) (blk : TsdfBlock) (index : VoxelIndex)
    (point : Point) (acc : ℕ × Mesh × VertexBlock) :
    ((∃ i : Fin 8, (blk (cornerVoxelIndex index i)).weight < cfg.min_weight) →
      extractMeshInsideBlock cfg vsize blk index point acc = acc) ∧
    ((∃ i : Fin 8, ∃ vox : TsdfVoxel,
        borderCornerVoxel vps sdfBlocks block_idx blk index i = some vox ∧
        vox.weight < cfg.min_weight) →
      extractMeshOnBorder cfg vps vsize sdfBlocks block_idx blk index point acc
        = acc) := by
  constructor
  · rintro ⟨i, hi⟩
    have hcol : collectInterior cfg blk index = none := by
      unfold collectInterior
      rw [dif_neg]
      intro hall
      exact absurd (hall i) (not_le.mpr hi)
    unfold extractMeshInsideBlock
    rw [hcol]
  · rintro ⟨i, vox, hv, hw⟩
    have hdata : borderCornerData cfg vps sdfBlocks block_idx blk index i
        = none := by
      simp only [borderCornerData, hv]
      rw [if_neg (show ¬ sdfValid cfg vox from not_le.mpr hw)]
    have hnall : ¬ ∀ j : Fin 8,
        (borderCornerData cfg vps sdfBlocks block_idx blk index j).isSome := by
      intro hall
      have hh := hall i
      rw [hdata] at hh
      simp at hh
    unfold extractMeshOnBorder
    rw [dif_neg hnall]

/-- Witness for C3 at a concrete input: a cell whose corners all have weight 0
below a configured minimum weight of 1. -/
theorem low_weight_corner_skips_cell_witness :
    extractMeshInsideBlock ⟨1, 2⟩ 1 (fun _ => ⟨0, 0, 0⟩) (0, 0, 0) (0, 0, 0)
      (0, ⟨[], [], [], false⟩, emptyVertexBlock)
      = (0, ⟨[], [], [], false⟩, emptyVertexBlock) ∧
    extractMeshOnBorder ⟨1, 2⟩ 1 1 [] (0, 0, 0) (fun _ => ⟨0, 0, 0⟩) (0, 0, 0)
      (0, 0, 0) (0, ⟨[], [], [], false⟩, emptyVertexBlock)
      = (0, ⟨[], [], [], false⟩, emptyVertexBlock) :=
  ⟨(low_weight_corner_skips_cell ⟨1, 2⟩ 1 1 [] (0, 0, 0) (fun _ => ⟨0, 0, 0⟩)
      (0, 0, 0) (0, 0, 0) (0, ⟨[], [], [], false⟩, emptyVertexBlock)).1
      ⟨0, by decide⟩,
   (low_weight_corner_skips_cell ⟨1, 2⟩ 1 1 [] (0, 0, 0) (fun _ => ⟨0, 0, 0⟩)
      (0, 0, 0) (0, 0, 0) (0, ⟨[], [], [], false⟩, emptyVertexBlock)).2
      ⟨0, ⟨0, 0, 0⟩, by decide, by decide⟩⟩

/-! ### C4: a missing neighbor block skips the whole border cell -/

/-- C4: for a border cell with a corner outside the current block, if the
computed neighbor block is not allocated in the distance field, extraction of
that cell returns early with mesh, counter and marker block unchanged. -/
theorem missing_neighbor_skips_cell (cfg : MeshIntegratorConfig) (vps : ℕ)
    (vsize : ℚ) (sdfBlocks : List (BlockIndex × TsdfBlock))
    (block_idx : BlockIndex) (blk : TsdfBlock) (index : VoxelIndex)
    (point : Point) (acc : ℕ × Mesh × VertexBlock) (i : Fin 8)
    (hout : ¬ isValidVoxelIndex vps (cornerVoxelIndex index i))
    (hmiss : lget sdfBlocks
      (getNeighborBlockIndex block_idx (cornerVoxelIndex index i) vps).1
      = none) :
    extractMeshOnBorder cfg vps vsize sdfBlocks block_idx blk index point acc
      = acc := by
  have hvox : borderCornerVoxel vps sdfBlocks block_idx blk index i = none := by
    simp only [borderCornerVoxel]
    rw [if_neg hout, hmiss]
    rfl
  have hdata : borderCornerData cfg vps sdfBlocks block_idx blk index i
      = none := by
    simp only [borderCornerData, hvox]
  have hnall : ¬ ∀ j : Fin 8,
      (borderCornerData cfg vps sdfBlocks block_idx blk index j).isSome := by
    intro hall
    have hh := hall i
    rw [hdata] at hh
    simp at hh
  unfold extractMeshOnBorder
  rw [dif_neg hnall]

/-- Witness for C4 at a concrete input: `vps = 1`, so corner 1 of the cell at
the origin lies in the (unallocated) x-neighbor of an empty distance field. -/
theorem missing_neighbor_skips_cell_witness :
    extractMeshOnBorder ⟨1, 2⟩ 1 1 [] (0, 0, 0) (fun _ => ⟨0, 5, 0⟩) (0, 0, 0)
      (0, 0, 0) (0, ⟨[], [], [], false⟩, emptyVertexBlock)
      = (0, ⟨[], [], [], false⟩, emptyVertexBlock) :=
  missing_neighbor_skips_cell ⟨1, 2⟩ 1 1 [] (0, 0, 0) (fun _ => ⟨0, 5, 0⟩)
    (0, 0, 0) (0, 0, 0) (0, ⟨[], [], [], false⟩, emptyVertexBlock) 1
    (by decide) rfl

/-! ### C5: marker references are local-only during the exterior pass -/

/-- C5: during border extraction a marker reference is passed to the Cube
Sampler only for corners lying inside the current block (outside corners get an
absent reference), and the exterior pass for a block never modifies the
vertex-marker entry of any other block. -/
theorem exterior_marker_frame (cfg : MeshIntegratorConfig) (vps : ℕ)
    (vsize : ℚ) (sdfBlocks : List (BlockIndex × TsdfBlock))
    (sem : Option SemLayer) (b : BlockIndex) (blk : TsdfBlock)
    (index : VoxelIndex) (p : MeshLayer × VertexLayer) (b2 : BlockIndex) :
    (∀ (i : Fin 8) (d : ℚ) (m : VoxelIndex),
        borderCornerData cfg vps sdfBlocks b blk index i = some (d, some m) →
        isValidVoxelIndex vps (cornerVoxelIndex index i)) ∧
    (b2 ≠ b →
      lget (exteriorStep cfg vps vsize sdfBlocks sem p b).2 b2 = lget p.2 b2) := by
  constructor
  · intro i d m h
    by_contra hout
    rcases hvox : borderCornerVoxel vps sdfBlocks b blk index i with _ | vox
    · simp [borderCornerData, hvox] at h
    · simp only [borderCornerData, hvox] at h
      rw [if_neg hout] at h
      split at h
      · simp at h
      · simp at h
  · intro hne
    unfold exteriorStep
    rcases hm : lget p.1 b with _ | entry <;>
      rcases hs : lget sdfBlocks b with _ | blk2 <;>
      rcases hv : lget p.2 b with _ | vb <;>
      simp only []
    exact lget_lsetConst_ne p.2 _ (Ne.symm hne)

/-- Witness for C5 at a concrete input: corner 0 of the origin cell is inside
the block, and reading another block's marker entry is unaffected by the
exterior step. -/
theorem exterior_marker_frame_witness :
    isValidVoxelIndex 1 (cornerVoxelIndex (0, 0, 0) 0) ∧
    lget (exteriorStep ⟨1, 2⟩ 1 1 [] none (([], []) : MeshLayer × VertexLayer)
      (0, 0, 0)).2 (1, 0, 0) = lget ([] : VertexLayer) (1, 0, 0) :=
  ⟨(exterior_marker_frame ⟨1, 2⟩ 1 1 [] none (0, 0, 0) (fun _ => ⟨3, 2, 7⟩)
      (0, 0, 0) ([], []) (1, 0, 0)).1 0 3 (0, 0, 0) (by decide),
   (exterior_marker_frame ⟨1, 2⟩ 1 1 [] none (0, 0, 0) (fun _ => ⟨3, 2, 7⟩)
      (0, 0, 0) ([], []) (1, 0, 0)).2 (by decide)⟩

/-! ### C1: the exterior pass covers each boundary cell exactly once -/

theorem nodup_grid (n m : ℕ) (f : ℕ → ℕ → VoxelIndex)
    (hf : ∀ a b a2 b2, a < n → b < m → a2 < n → b2 < m →
      f a b = f a2 b2 → a = a2 ∧ b = b2) :
    ((List.range n).flatMap (fun a => (List.range m).map (f a))).Nodup := by
  rw [List.nodup_flatMap]
  constructor
  · intro a ha
    rw [List.mem_range] at ha
    apply List.Nodup.map_on
    · intro b hb b2 hb2 heq
      rw [List.mem_range] at hb hb2
      exact (hf a b a b2 ha hb ha hb2 heq).2
    · exact List.nodup_range m
  · have hp : (List.range n).Pairwise (· < ·) := List.pairwise_lt_range n
    apply hp.imp_of_mem
    intro a a2 ha ha2 hlt
    rw [List.mem_range] at ha ha2
    intro x hx1 hx2
    rw [List.mem_map] at hx1 hx2
    obtain ⟨b, hb, rfl⟩ := hx1
    obtain ⟨b2, hb2, heq⟩ := hx2
    rw [List.mem_range] at hb hb2
    have := (hf a2 b2 a b ha2 hb2 ha hb heq).1
    omega

theorem mem_maxXFaceCells (vps : ℕ) (v : VoxelIndex) :
    v ∈ maxXFaceCells vps ↔
      v.1 = (vps : ℤ) - 1 ∧ 0 ≤ v.2.1 ∧ v.2.1 < (vps : ℤ) ∧
        0 ≤ v.2.2 ∧ v.2.2 < (vps : ℤ) := by
  unfold maxXFaceCells
  simp only [List.mem_flatMap, List.mem_map, List.mem_range]
  constructor
  · rintro ⟨z, hz, y, hy, rfl⟩
    refine ⟨rfl, ?_, ?_, ?_, ?_⟩ <;> simp <;> omega
  · rintro ⟨h1, h2, h3, h4, h5⟩
    obtain ⟨a, b, c⟩ := v
    simp only at h1 h2 h3 h4 h5
    refine ⟨c.toNat, by omega, b.toNat, by omega, ?_⟩
    simp only [Prod.mk.injEq]
    refine ⟨h1.symm, ?_, ?_⟩ <;> omega

theorem mem_maxYFaceCells (vps : ℕ) (v : VoxelIndex) :
    v ∈ maxYFaceCells vps ↔
      0 ≤ v.1 ∧ v.1 < (vps : ℤ) - 1 ∧ v.2.1 = (vps : ℤ) - 1 ∧
        0 ≤ v.2.2 ∧ v.2.2 < (vps : ℤ) := by
  unfold maxYFaceCells
  simp only [List.mem_flatMap, List.mem_map, List.mem_range]
  constructor
  · rintro ⟨z, hz, x, hx, rfl⟩
    refine ⟨?_, ?_, rfl, ?_, ?_⟩ <;> simp <;> omega
  · rintro ⟨h1, h2, h3, h4, h5⟩
    obtain ⟨a, b, c⟩ := v
    simp only at h1 h2 h3 h4 h5
    refine ⟨c.toNat, by omega, a.toNat, by omega, ?_⟩
    simp only [Prod.mk.injEq]
    refine ⟨?_, h3.symm, ?_⟩ <;> omega

theorem mem_maxZFaceCells (vps : ℕ) (v : VoxelIndex) :
    v ∈ maxZFaceCells vps ↔
      0 ≤ v.1 ∧ v.1 < (vps : ℤ) - 1 ∧ 0 ≤ v.2.1 ∧ v.2.1 < (vps : ℤ) - 1 ∧
        v.2.2 = (vps : ℤ) - 1 := by
  unfold maxZFaceCells
  simp only [List.mem_flatMap, List.mem_map, List.mem_range]
  constructor
  · rintro ⟨y, hy, x, hx, rfl⟩
    refine ⟨?_, ?_, ?_, ?_, rfl⟩ <;> simp <;> omega
  · rintro ⟨h1, h2, h3, h4, h5⟩
    obtain ⟨a, b, c⟩ := v
    simp only at h1 h2 h3 h4 h5
    refine ⟨b.toNat, by omega, a.toNat, by omega, ?_⟩
    simp only [Prod.mk.injEq]
    refine ⟨?_, ?_, h5.symm⟩ <;> omega

theorem maxXFaceCells_nodup (vps : ℕ) : (maxXFaceCells vps).Nodup := by
  unfold maxXFaceCells
  apply nodup_grid
  intro a b a2 b2 _ _ _ _ heq
  simp only [Prod.mk.injEq] at heq
  omega

theorem maxYFaceCells_nodup (vps : ℕ) : (maxYFaceCells vps).Nodup := by
  unfold maxYFaceCells
  apply nodup_grid
  intro a b a2 b2 _ _ _ _ heq
  simp only [Prod.mk.injEq] at heq
  omega

theorem maxZFaceCells_nodup (vps : ℕ) : (maxZFaceCells vps).Nodup := by
  unfold maxZFaceCells
  apply nodup_grid
  intro a b a2 b2 _ _ _ _ heq
  simp only [Prod.mk.injEq] at heq
  omega

theorem exteriorCells_nodup (vps : ℕ) : (exteriorCells vps).Nodup := by
  unfold exteriorCells
  rw [List.nodup_append, List.nodup_append]
  refine ⟨⟨maxXFaceCells_nodup vps, maxYFaceCells_nodup vps, ?_⟩,
    maxZFaceCells_nodup vps, ?_⟩
  · intro v hv1 hv2
    rw [mem_maxXFaceCells] at hv1
    rw [mem_maxYFaceCells] at hv2
    omega
  · intro v hv1 hv2
    rw [List.mem_append, mem_maxXFaceCells, mem_maxYFaceCells] at hv1
    rw [mem_maxZFaceCells] at hv2
    rcases hv1 with hv1 | hv1 <;> omega

theorem mem_exteriorCells (vps : ℕ) (v : VoxelIndex) :
    v ∈ exteriorCells vps ↔
      isValidVoxelIndex vps v ∧ (v.1 = (vps : ℤ) - 1 ∨ v.2.1 = (vps : ℤ) - 1 ∨
        v.2.2 = (vps : ℤ) - 1) := by
  unfold exteriorCells
  rw [List.mem_append, List.mem_append, mem_maxXFaceCells, mem_maxYFaceCells,
    mem_maxZFaceCells]
  unfold isValidVoxelIndex
  constructor
  · rintro ((h | h) | h) <;> exact ⟨by omega, by omega⟩
  · rintro ⟨hr, hb⟩
    by_cases h1 : v.1 = (vps : ℤ) - 1
    · exact Or.inl (Or.inl (by omega))
    · by_cases h2 : v.2.1 = (vps : ℤ) - 1
      · exact Or.inl (Or.inr (by omega))
      · exact Or.inr (by omega)

theorem count_dec_eq_zero_of_not_mem {α : Type} [DecidableEq α] {a : α}
    {l : List α} (h : a ∉ l) : @List.count α instBEqOfDecidableEq a l = 0 := by
  induction l with
  | nil => rfl
  | cons x xs ih =>
      have h1 : a ≠ x := fun he => h (he ▸ List.mem_cons_self x xs)
      have h2 : a ∉ xs := fun he => h (List.mem_cons_of_mem x he)
      rw [List.count_cons, ih h2]
      have hb : (x == a) = false := decide_eq_false (fun he => h1 he.symm)
      rw [hb]
      rfl

/-- C1: in the exterior pass the three face loops (max-X over full y and z,
max-Y over full z with x excluding its maximum, max-Z with x and y excluding
their maxima) visit every cell having at least one coordinate equal to
`vps - 1` exactly once, and visit no other cell. -/
theorem exterior_pass_covers_boundary_once (vps : ℕ) (v : VoxelIndex)
    (hv : isValidVoxelIndex vps v) :
    @List.count VoxelIndex instBEqOfDecidableEq v (exteriorCells vps) =
      if v.1 = (vps : ℤ) - 1 ∨ v.2.1 = (vps : ℤ) - 1 ∨ v.2.2 = (vps : ℤ) - 1
      then 1 else 0 := by
  by_cases hb : v.1 = (vps : ℤ) - 1 ∨ v.2.1 = (vps : ℤ) - 1 ∨
      v.2.2 = (vps : ℤ) - 1
  · rw [if_pos hb]
    exact List.count_eq_one_of_mem (exteriorCells_nodup vps)
      ((mem_exteriorCells vps v).mpr ⟨hv, hb⟩)
  · rw [if_neg hb]
    exact count_dec_eq_zero_of_not_mem
      (fun hmem => hb ((mem_exteriorCells vps v).mp hmem).2)

/-- Witness for C1 at a concrete input: with `vps = 3` the boundary cell
`(2, 0, 1)` is visited exactly once. -/
theorem exterior_pass_covers_boundary_once_witness :
    @List.count VoxelIndex instBEqOfDecidableEq (2, 0, 1) (exteriorCells 3) = 1 := by
  have h := exterior_pass_covers_boundary_once 3 (2, 0, 1) (by decide)
  rw [if_pos (by decide)] at h
  exact h

/-! ### C9: work-queue exhaustion -/

theorem dispStep_fold_map_snd (total : ℕ) (sched : List ℕ) :
    ∀ s : ℕ × List (ℕ × ℕ),
      ((sched.foldl (dispStep total) s).2).map Prod.snd
        = s.2.map Prod.snd
            ++ List.range' s.1 (min (total - s.1) sched.length) := by
  induction sched with
  | nil => intro s; simp
  | cons w ws ih =>
      intro s
      rw [List.foldl_cons]
      by_cases hlt : s.1 < total
      · have hstep : dispStep total s w = (s.1 + 1, s.2 ++ [(w, s.1)]) := by
          unfold dispStep; rw [if_pos hlt]
        rw [hstep, ih]
        have hmin : min (total - s.1) (w :: ws).length
            = min (total - (s.1 + 1)) ws.length + 1 := by
          simp only [List.length_cons]; omega
        rw [hmin, List.range'_succ]
        simp [List.append_assoc]
      · have hstep : dispStep total s w = s := by
          unfold dispStep; rw [if_neg hlt]
        rw [hstep, ih]
        have h0 : total - s.1 = 0 := by omega
        simp [h0]

/-- C9: for `total` candidate blocks and any interleaving of worker polls long
enough that every worker has seen the queue exhausted, the claim events of the
shared work cursor cover the block-list indices `0 .. total - 1` exactly once,
and each index is claimed by exactly one (worker, index) event. -/
theorem work_queue_each_index_once (total : ℕ) (sched : List ℕ)
    (hlen : total ≤ sched.length) :
    (runSchedule total sched).map Prod.snd = List.range total ∧
    ∀ k, k < total → ∃! e, e ∈ runSchedule total sched ∧ e.2 = k := by
  have h1 : (runSchedule total sched).map Prod.snd = List.range total := by
    unfold runSchedule
    rw [dispStep_fold_map_snd]
    simp only [List.map_nil, List.nil_append, Nat.sub_zero]
    rw [min_eq_left hlen, List.range_eq_range']
  refine ⟨h1, ?_⟩
  intro k hk
  have hmem : k ∈ (runSchedule total sched).map Prod.snd := by
    rw [h1, List.mem_range]; exact hk
  rw [List.mem_map] at hmem
  obtain ⟨e, he, hek⟩ := hmem
  refine ⟨e, ⟨he, hek⟩, ?_⟩
  intro e2 ⟨he2, hek2⟩
  have hnd : ((runSchedule total sched).map Prod.snd).Nodup := by
    rw [h1]; exact List.nodup_range total
  exact List.inj_on_of_nodup_map hnd he2 he (by rw [hek2, hek])

/-- Witness for C9 at a concrete input: two blocks, a pool of two workers
polling in the order worker 0, worker 1, worker 0. -/
theorem work_queue_each_index_once_witness :
    (runSchedule 2 [0, 1, 0]).map Prod.snd = List.range 2 ∧
    ∀ k, k < 2 → ∃! e, e ∈ runSchedule 2 [0, 1, 0] ∧ e.2 = k :=
  work_queue_each_index_once 2 [0, 1, 0] (by decide)

/-! ### C7: candidate selection and flag clearing -/

theorem clearFold_mem (bs : List BlockIndex) :
    ∀ (L : TsdfLayer) (b : BlockIndex),
      b ∈ (bs.foldl clearMeshFlag L).meshFlags ↔
        b ∈ L.meshFlags ∧ b ∉ bs := by
  induction bs with
  | nil => intro L b; simp
  | cons c rest ih =>
      intro L b
      rw [List.foldl_cons, ih]
      unfold clearMeshFlag
      simp only [List.mem_filter, decide_eq_true_eq, List.mem_cons]
      constructor
      · rintro ⟨⟨hbL, hbc⟩, hbr⟩
        exact ⟨hbL, by tauto⟩
      · rintro ⟨hbL, hnot⟩
        exact ⟨⟨hbL, fun he => hnot (Or.inl he)⟩, fun he => hnot (Or.inr he)⟩

theorem clearFold_blocks (bs : List BlockIndex) :
    ∀ L : TsdfLayer, (bs.foldl clearMeshFlag L).blocks = L.blocks ∧
      (bs.foldl clearMeshFlag L).vps = L.vps ∧
      (bs.foldl clearMeshFlag L).vsize = L.vsize := by
  induction bs with
  | nil => intro L; exact ⟨rfl, rfl, rfl⟩
  | cons c rest ih => intro L; exact ih (clearMeshFlag L c)

theorem generateMesh_sdf (cfg : MeshIntegratorConfig) (sem : Option SemLayer)
    (st : IntState) (ou cf : Bool) :
    (generateMesh cfg sem st ou cf).sdf =
      if cf then (candidateBlocks st.sdf ou).foldl clearMeshFlag st.sdf
      else st.sdf := rfl

/-- C7: `generateMesh` selects exactly the flagged blocks when `only_updated`
and all allocated blocks otherwise, and it clears the needs-remeshing flag of a
block if and only if `clear_flag` is set and the block is a candidate; all
other flags survive. -/
theorem generateMesh_selects_and_clears_flags (cfg : MeshIntegratorConfig)
    (sem : Option SemLayer) (st : IntState) (ou cf : Bool) :
    candidateBlocks st.sdf true = st.sdf.meshFlags ∧
    candidateBlocks st.sdf false = st.sdf.blocks.map Prod.fst ∧
    (∀ b, b ∈ (generateMesh cfg sem st ou cf).sdf.meshFlags ↔
      (b ∈ st.sdf.meshFlags ∧
        ¬(cf = true ∧ b ∈ candidateBlocks st.sdf ou))) := by
  refine ⟨rfl, rfl, ?_⟩
  intro b
  rw [generateMesh_sdf]
  by_cases hcf : cf = true
  · rw [hcf]
    simp only [if_true]
    rw [clearFold_mem]
    simp
  · have : cf = false := by
      cases cf
      · rfl
      · exact absurd rfl hcf
    rw [this]
    simp

/-- Witness for C7 at a concrete input: one flagged allocated block, flags
cleared by the call. -/
theorem generateMesh_selects_and_clears_flags_witness :
    candidateBlocks (TsdfLayer.mk 1 1 [((0, 0, 0), fun _ => ⟨0, 0, 0⟩)]
      [(0, 0, 0)]) true = [(0, 0, 0)] ∧
    candidateBlocks (TsdfLayer.mk 1 1 [((0, 0, 0), fun _ => ⟨0, 0, 0⟩)]
      [(0, 0, 0)]) false = [(0, 0, 0)] ∧
    (∀ b, b ∈ (generateMesh ⟨1, 2⟩ none
        (IntState.mk (TsdfLayer.mk 1 1 [((0, 0, 0), fun _ => ⟨0, 0, 0⟩)]
          [(0, 0, 0)]) [] []) true true).sdf.meshFlags ↔
      (b ∈ [((0 : ℤ), (0 : ℤ), (0 : ℤ))] ∧
        ¬(true = true ∧ b ∈ candidateBlocks
          (TsdfLayer.mk 1 1 [((0, 0, 0), fun _ => ⟨0, 0, 0⟩)] [(0, 0, 0)])
          true))) :=
  generateMesh_selects_and_clears_flags ⟨1, 2⟩ none
    (IntState.mk (TsdfLayer.mk 1 1 [((0, 0, 0), fun _ => ⟨0, 0, 0⟩)]
      [(0, 0, 0)]) [] []) true true

/-! ### C8: the setup loop clears mesh entries and marker flags -/

theorem setupPhase_eq (h : Bool) (bs : List BlockIndex) :
    ∀ M V, setupPhase h (M, V) bs
      = (allocFold (clearedMeshEntry h) M bs,
         allocFold emptyVertexBlock V bs) := by
  induction bs with
  | nil => intro M V; rfl
  | cons b rest ih =>
      intro M V
      exact ih (allocSet M b (clearedMeshEntry h))
        (allocSet V b emptyVertexBlock)

theorem allocFold_lget_not_mem {α : Type} (cl : α) (bs : List BlockIndex) :
    ∀ (X : List (BlockIndex × α)) (b : BlockIndex), b ∉ bs →
      lget (allocFold cl X bs) b = lget X b := by
  induction bs with
  | nil => intro X b _; rfl
  | cons c rest ih =>
      intro X b hb
      have hbc : c ≠ b := fun he => hb (he ▸ List.mem_cons_self c rest)
      have hbr : b ∉ rest := fun he => hb (List.mem_cons_of_mem c he)
      calc lget (allocFold cl (allocSet X c cl) rest) b
          = lget (allocSet X c cl) b := ih (allocSet X c cl) b hbr
        _ = lget X b := lget_allocSet_ne X cl hbc

theorem allocFold_lget_mem {α : Type} (cl : α) (bs : List BlockIndex) :
    ∀ (X : List (BlockIndex × α)) (b : BlockIndex), b ∈ bs →
      lget (allocFold cl X bs) b = some cl := by
  induction bs with
  | nil => intro X b hb; exact absurd hb (List.not_mem_nil b)
  | cons c rest ih =>
      intro X b hb
      by_cases hbr : b ∈ rest
      · exact ih (allocSet X c cl) b hbr
      · have hbc : b = c := by
          rcases List.mem_cons.mp hb with he | he
          · exact he
          · exact absurd he hbr
        subst hbc
        calc lget (allocFold cl (allocSet X b cl) rest) b
            = lget (allocSet X b cl) b := allocFold_lget_not_mem cl rest _ b hbr
          _ = some cl := lget_allocSet_self X b cl

/-- C8: before the interior pass starts, the setup loop of `generateMesh`
leaves every candidate block with a freshly cleared mesh entry (empty vertex,
index and color sequences) and an allocated vertex-marker block whose
`on_surface` flag is false at every voxel, so no stale marker from a previous
remesh survives. -/
theorem setup_clears_mesh_and_markers (hasSem : Bool) (M : MeshLayer)
    (V : VertexLayer) (bs : List BlockIndex) (b : BlockIndex) (hb : b ∈ bs) :
    lget (setupPhase hasSem (M, V) bs).1 b = some (clearedMeshEntry hasSem) ∧
    (clearedMeshEntry hasSem).mesh.vertices = [] ∧
    (clearedMeshEntry hasSem).mesh.indices = [] ∧
    (clearedMeshEntry hasSem).mesh.colors = [] ∧
    ∃ vb, lget (setupPhase hasSem (M, V) bs).2 b = some vb ∧
      ∀ v, vb v = false := by
  rw [setupPhase_eq]
  refine ⟨allocFold_lget_mem _ bs M b hb, rfl, rfl, rfl,
    emptyVertexBlock, allocFold_lget_mem _ bs V b hb, fun _ => rfl⟩

/-- Witness for C8 at a concrete input: a single candidate block over empty
mesh and marker layers. -/
theorem setup_clears_mesh_and_markers_witness :
    lget (setupPhase false ([], []) [((0 : ℤ), (0 : ℤ), (0 : ℤ))]).1 (0, 0, 0)
      = some (clearedMeshEntry false) ∧
    (clearedMeshEntry false).mesh.vertices = [] ∧
    (clearedMeshEntry false).mesh.indices = [] ∧
    (clearedMeshEntry false).mesh.colors = [] ∧
    ∃ vb, lget (setupPhase false ([], []) [((0 : ℤ), (0 : ℤ), (0 : ℤ))]).2
      (0, 0, 0) = some vb ∧ ∀ v, vb v = false :=
  setup_clears_mesh_and_markers false [] [] [(0, 0, 0)] (0, 0, 0)
    (List.mem_singleton.mpr rfl)

/-! ### Lemmas shared by C2 and C6: steps, runs and color painting -/

theorem lget_lsetConst_self_map {α : Type} (l : List (BlockIndex × α))
    (b : BlockIndex) (v : α) :
    lget (lsetConst l b v) b = (lget l b).map (fun _ => v) := by
  induction l with
  | nil => rfl
  | cons p rest ih =>
      simp only [lsetConst, List.map_cons] at *
      by_cases hp : p.1 = b
      · simp [lget, hp]
      · simp [lget, hp, ih]

theorem foldl_preserve {γ δ : Type} (P : δ → Prop) (step : δ → γ → δ)
    (hstep : ∀ acc c, P acc → P (step acc c)) :
    ∀ (l : List γ) (acc : δ), P acc → P (l.foldl step acc) := by
  intro l
  induction l with
  | nil => intro acc h; exact h
  | cons c rest ih => intro acc h; exact ih (step acc c) (hstep acc c h)

theorem meshCube_mesh (coords : Fin 8 → Point) (sdf : Fin 8 → ℚ) (next : ℕ)
    (mesh : Mesh) (markers : Fin 8 → Option VoxelIndex) (vb : VertexBlock) :
    (meshCube coords sdf next mesh markers vb).2.1 =
      { mesh with
        vertices := mesh.vertices ++ (crossingEdges sdf).map (interpVertex coords sdf),
        indices := mesh.indices ++
          (List.range ((crossingEdges sdf).map (interpVertex coords sdf)).length).map
            (fun j => j + next) } := rfl

theorem meshCube_lockstep (coords : Fin 8 → Point) (sdf : Fin 8 → ℚ) (next : ℕ)
    (mesh : Mesh) (markers : Fin 8 → Option VoxelIndex) (vb : VertexBlock)
    (h : mesh.indices.length = mesh.vertices.length) :
    (meshCube coords sdf next mesh markers vb).2.1.indices.length
      = (meshCube coords sdf next mesh markers vb).2.1.vertices.length := by
  rw [meshCube_mesh]
  simp [h]

theorem extractInside_lockstep (cfg : MeshIntegratorConfig) (vsize : ℚ)
    (blk : TsdfBlock) (cell : VoxelIndex) (point : Point)
    (acc : ℕ × Mesh × VertexBlock)
    (h : acc.2.1.indices.length = acc.2.1.vertices.length) :
    (extractMeshInsideBlock cfg vsize blk cell point acc).2.1.indices.length
      = (extractMeshInsideBlock cfg vsize blk cell point acc).2.1.vertices.length := by
  unfold extractMeshInsideBlock
  cases hcol : collectInterior cfg blk cell
  · exact h
  · exact meshCube_lockstep _ _ _ _ _ _ h

theorem extractBorder_lockstep (cfg : MeshIntegratorConfig) (vps : ℕ)
    (vsize : ℚ) (sdfBlocks : List (BlockIndex × TsdfBlock))
    (block_idx : BlockIndex) (blk : TsdfBlock) (cell : VoxelIndex)
    (point : Point) (acc : ℕ × Mesh × VertexBlock)
    (h : acc.2.1.indices.length = acc.2.1.vertices.length) :
    (extractMeshOnBorder cfg vps vsize sdfBlocks block_idx blk cell point
      acc).2.1.indices.length
      = (extractMeshOnBorder cfg vps vsize sdfBlocks block_idx blk cell point
        acc).2.1.vertices.length := by
  unfold extractMeshOnBorder
  by_cases hall : ∀ i : Fin 8,
      (borderCornerData cfg vps sdfBlocks block_idx blk cell i).isSome
  · rw [dif_pos hall]
    exact meshCube_lockstep _ _ _ _ _ _ h
  · rw [dif_neg hall]
    exact h

theorem interiorRun_lockstep (cfg : MeshIntegratorConfig) (vps : ℕ) (vsize : ℚ)
    (blk : TsdfBlock) (b : BlockIndex) (init : ℕ × Mesh × VertexBlock)
    (h : init.2.1.indices.length = init.2.1.vertices.length) :
    (interiorRun cfg vps vsize blk b init).2.1.indices.length
      = (interiorRun cfg vps vsize blk b init).2.1.vertices.length := by
  unfold interiorRun
  exact foldl_preserve (fun acc => acc.2.1.indices.length = acc.2.1.vertices.length)
    _ (fun acc c hc => extractInside_lockstep cfg vsize blk c _ acc hc)
    (interiorCells vps) init h

theorem exteriorRun_lockstep (cfg : MeshIntegratorConfig) (vps : ℕ) (vsize : ℚ)
    (sdfBlocks : List (BlockIndex × TsdfBlock)) (blk : TsdfBlock)
    (b : BlockIndex) (init : ℕ × Mesh × VertexBlock)
    (h : init.2.1.indices.length = init.2.1.vertices.length) :
    (exteriorRun cfg vps vsize sdfBlocks blk b init).2.1.indices.length
      = (exteriorRun cfg vps vsize sdfBlocks blk b init).2.1.vertices.length := by
  unfold exteriorRun
  exact foldl_preserve (fun acc => acc.2.1.indices.length = acc.2.1.vertices.length)
    _ (fun acc c hc => extractBorder_lockstep cfg vps vsize sdfBlocks b blk c _ acc hc)
    (exteriorCells vps) init h

theorem interiorStep_eq_of_found (cfg : MeshIntegratorConfig) (vps : ℕ)
    (vsize : ℚ) (sdfBlocks : List (BlockIndex × TsdfBlock))
    (p : MeshLayer × VertexLayer) (b : BlockIndex) (entry : MeshBlock)
    (blk : TsdfBlock) (vb : VertexBlock) (h1 : lget p.1 b = some entry)
    (h2 : lget sdfBlocks b = some blk) (h3 : lget p.2 b = some vb) :
    interiorStep cfg vps vsize sdfBlocks p b =
      (lsetConst p.1 b { entry with
        mesh := (interiorRun cfg vps vsize blk b (0, entry.mesh, vb)).2.1 },
       lsetConst p.2 b (interiorRun cfg vps vsize blk b (0, entry.mesh, vb)).2.2) := by
  unfold interiorStep
  rw [h1, h2, h3]

theorem interiorStep_eq_self (cfg : MeshIntegratorConfig) (vps : ℕ)
    (vsize : ℚ) (sdfBlocks : List (BlockIndex × TsdfBlock))
    (p : MeshLayer × VertexLayer) (b : BlockIndex)
    (h : lget p.1 b = none ∨ lget sdfBlocks b = none ∨ lget p.2 b = none) :
    interiorStep cfg vps vsize sdfBlocks p b = p := by
  unfold interiorStep
  rcases h with h | h | h
  · rw [h]
  · rw [h]
    cases lget p.1 b <;> rfl
  · rw [h]
    cases lget p.1 b <;> cases lget sdfBlocks b <;> rfl

theorem exteriorStep_eq_of_found (cfg : MeshIntegratorConfig) (vps : ℕ)
    (vsize : ℚ) (sdfBlocks : List (BlockIndex × TsdfBlock))
    (sem : Option SemLayer) (p : MeshLayer × VertexLayer) (b : BlockIndex)
    (entry : MeshBlock) (blk : TsdfBlock) (vb : VertexBlock)
    (h1 : lget p.1 b = some entry) (h2 : lget sdfBlocks b = some blk)
    (h3 : lget p.2 b = some vb) :
    exteriorStep cfg vps vsize sdfBlocks sem p b =
      (lsetConst p.1 b
        (let r := exteriorRun cfg vps vsize sdfBlocks blk b
          (entry.mesh.vertices.length, entry.mesh, vb)
         let e2 := updateMeshColor cfg vps vsize sdfBlocks sem blk b
          { entry with mesh := r.2.1 }
         { e2 with mesh := { e2.mesh with updated := true } }),
       lsetConst p.2 b (exteriorRun cfg vps vsize sdfBlocks blk b
          (entry.mesh.vertices.length, entry.mesh, vb)).2.2) := by
  unfold exteriorStep
  rw [h1, h2, h3]

theorem exteriorStep_eq_self (cfg : MeshIntegratorConfig) (vps : ℕ)
    (vsize : ℚ) (sdfBlocks : List (BlockIndex × TsdfBlock))
    (sem : Option SemLayer) (p : MeshLayer × VertexLayer) (b : BlockIndex)
    (h : lget p.1 b = none ∨ lget sdfBlocks b = none ∨ lget p.2 b = none) :
    exteriorStep cfg vps vsize sdfBlocks sem p b = p := by
  unfold exteriorStep
  rcases h with h | h | h
  · rw [h]
  · rw [h]
    cases lget p.1 b <;> rfl
  · rw [h]
    cases lget p.1 b <;> cases lget sdfBlocks b <;> rfl

theorem vecResize_length (l : List ℕ) (n : ℕ) : (vecResize l n).length = n := by
  unfold vecResize
  rw [List.length_append, List.length_take, List.length_replicate]
  omega

theorem foldl_set_or_id_length {γ : Type} (step : List γ → ℕ → List γ)
    (hstep : ∀ acc i, step acc i = acc ∨ ∃ v, step acc i = acc.set i v) :
    ∀ (l : List ℕ) (acc : List γ), (l.foldl step acc).length = acc.length := by
  intro l
  induction l with
  | nil => intro acc; rfl
  | cons c rest ih =>
      intro acc
      rw [List.foldl_cons, ih]
      rcases hstep acc c with h | ⟨v, h⟩
      · rw [h]
      · rw [h, List.length_set]

theorem updateMeshColor_spec (cfg : MeshIntegratorConfig) (vps : ℕ) (vsize : ℚ)
    (sdfBlocks : List (BlockIndex × TsdfBlock)) (sem : Option SemLayer)
    (blk : TsdfBlock) (b : BlockIndex) (entry : MeshBlock) :
    (updateMeshColor cfg vps vsize sdfBlocks sem blk b entry).mesh.vertices
      = entry.mesh.vertices ∧
    (updateMeshColor cfg vps vsize sdfBlocks sem blk b entry).mesh.indices
      = entry.mesh.indices ∧
    (updateMeshColor cfg vps vsize sdfBlocks sem blk b entry).mesh.updated
      = entry.mesh.updated ∧
    (updateMeshColor cfg vps vsize sdfBlocks sem blk b entry).mesh.colors.length
      = entry.mesh.indices.length ∧
    (sem.isSome = true → ∃ l,
      (updateMeshColor cfg vps vsize sdfBlocks sem blk b entry).labels = some l ∧
      l.length = entry.mesh.indices.length) := by
  cases sem with
  | none =>
      refine ⟨rfl, rfl, rfl, ?_, ?_⟩
      · show (List.foldl _ (List.replicate entry.mesh.indices.length 0)
          (List.range entry.mesh.vertices.length)).length
          = entry.mesh.indices.length
        refine (foldl_set_or_id_length _ ?_ _ _).trans
          (List.length_replicate _ _)
        intro acc i
        cases h : entry.mesh.vertices[i]? with
        | none => exact Or.inl (by simp [h])
        | some p =>
            exact Or.inr ⟨colorIfValid cfg
              (vertexVoxelLookup vps vsize sdfBlocks none blk b p).1,
              by simp [h]⟩
      · intro h
        simp at h
  | some semL =>
      refine ⟨rfl, rfl, rfl, ?_, ?_⟩
      · show (List.foldl _ (List.replicate entry.mesh.indices.length 0)
          (List.range entry.mesh.vertices.length)).length
          = entry.mesh.indices.length
        refine (foldl_set_or_id_length _ ?_ _ _).trans
          (List.length_replicate _ _)
        intro acc i
        cases h : entry.mesh.vertices[i]? with
        | none => exact Or.inl (by simp [h])
        | some p =>
            exact Or.inr ⟨colorIfValid cfg
              (vertexVoxelLookup vps vsize sdfBlocks (some semL) blk b p).1,
              by simp [h]⟩
      · intro _
        refine ⟨_, rfl, ?_⟩
        refine (foldl_set_or_id_length _ ?_ _ _).trans
          (vecResize_length _ _)
        intro acc i
        cases h1 : entry.mesh.vertices[i]? with
        | none => exact Or.inl (by simp [h1])
        | some p =>
            cases h2 : (vertexVoxelLookup vps vsize sdfBlocks (some semL)
                blk b p).2 with
            | none => exact Or.inl (by simp [h1, h2])
            | some lab => exact Or.inr ⟨lab, by simp [h1, h2]⟩

theorem lget_lsetConst_isSome {α : Type} (l : List (BlockIndex × α))
    (k b : BlockIndex) (v : α) :
    (lget (lsetConst l k v) b).isSome = (lget l b).isSome := by
  by_cases h : k = b
  · subst h
    rw [lget_lsetConst_self_map]
    cases lget l k <;> rfl
  · rw [lget_lsetConst_ne l v h]

theorem interiorStep_fst_lget_ne (cfg : MeshIntegratorConfig) (vps : ℕ)
    (vsize : ℚ) (sdfBlocks : List (BlockIndex × TsdfBlock))
    (p : MeshLayer × VertexLayer) (c b2 : BlockIndex) (hne : c ≠ b2) :
    lget (interiorStep cfg vps vsize sdfBlocks p c).1 b2 = lget p.1 b2 := by
  rcases h1 : lget p.1 c with _ | entry
  · rw [interiorStep_eq_self _ _ _ _ _ _ (Or.inl h1)]
  · rcases h2 : lget sdfBlocks c with _ | blk
    · rw [interiorStep_eq_self _ _ _ _ _ _ (Or.inr (Or.inl h2))]
    · rcases h3 : lget p.2 c with _ | vb
      · rw [interiorStep_eq_self _ _ _ _ _ _ (Or.inr (Or.inr h3))]
      · rw [interiorStep_eq_of_found _ _ _ _ _ _ _ _ _ h1 h2 h3]
        exact lget_lsetConst_ne p.1 _ hne

theorem interiorStep_snd_isSome (cfg : MeshIntegratorConfig) (vps : ℕ)
    (vsize : ℚ) (sdfBlocks : List (BlockIndex × TsdfBlock))
    (p : MeshLayer × VertexLayer) (c b2 : BlockIndex) :
    (lget (interiorStep cfg vps vsize sdfBlocks p c).2 b2).isSome
      = (lget p.2 b2).isSome := by
  rcases h1 : lget p.1 c with _ | entry
  · rw [interiorStep_eq_self _ _ _ _ _ _ (Or.inl h1)]
  · rcases h2 : lget sdfBlocks c with _ | blk
    · rw [interiorStep_eq_self _ _ _ _ _ _ (Or.inr (Or.inl h2))]
    · rcases h3 : lget p.2 c with _ | vb
      · rw [interiorStep_eq_self _ _ _ _ _ _ (Or.inr (Or.inr h3))]
      · rw [interiorStep_eq_of_found _ _ _ _ _ _ _ _ _ h1 h2 h3]
        exact lget_lsetConst_isSome p.2 c b2 _

theorem exteriorStep_fst_lget_ne (cfg : MeshIntegratorConfig) (vps : ℕ)
    (vsize : ℚ) (sdfBlocks : List (BlockIndex × TsdfBlock))
    (sem : Option SemLayer) (p : MeshLayer × VertexLayer) (c b2 : BlockIndex)
    (hne : c ≠ b2) :
    lget (exteriorStep cfg vps vsize sdfBlocks sem p c).1 b2 = lget p.1 b2 := by
  rcases h1 : lget p.1 c with _ | entry
  · rw [exteriorStep_eq_self _ _ _ _ _ _ _ (Or.inl h1)]
  · rcases h2 : lget sdfBlocks c with _ | blk
    · rw [exteriorStep_eq_self _ _ _ _ _ _ _ (Or.inr (Or.inl h2))]
    · rcases h3 : lget p.2 c with _ | vb
      · rw [exteriorStep_eq_self _ _ _ _ _ _ _ (Or.inr (Or.inr h3))]
      · rw [exteriorStep_eq_of_found _ _ _ _ _ _ _ _ _ _ h1 h2 h3]
        exact lget_lsetConst_ne p.1 _ hne

theorem exteriorStep_snd_isSome (cfg : MeshIntegratorConfig) (vps : ℕ)
    (vsize : ℚ) (sdfBlocks : List (BlockIndex × TsdfBlock))
    (sem : Option SemLayer) (p : MeshLayer × VertexLayer) (c b2 : BlockIndex) :
    (lget (exteriorStep cfg vps vsize sdfBlocks sem p c).2 b2).isSome
      = (lget p.2 b2).isSome := by
  rcases h1 : lget p.1 c with _ | entry
  · rw [exteriorStep_eq_self _ _ _ _ _ _ _ (Or.inl h1)]
  · rcases h2 : lget sdfBlocks c with _ | blk
    · rw [exteriorStep_eq_self _ _ _ _ _ _ _ (Or.inr (Or.inl h2))]
    · rcases h3 : lget p.2 c with _ | vb
      · rw [exteriorStep_eq_self _ _ _ _ _ _ _ (Or.inr (Or.inr h3))]
      · rw [exteriorStep_eq_of_found _ _ _ _ _ _ _ _ _ _ h1 h2 h3]
        exact lget_lsetConst_isSome p.2 c b2 _

theorem intFold_sdfnone (cfg : MeshIntegratorConfig) (vps : ℕ) (vsize : ℚ)
    (sdfBlocks : List (BlockIndex × TsdfBlock)) :
    ∀ (bs2 : List BlockIndex) (p : MeshLayer × VertexLayer) (b2 : BlockIndex),
      lget sdfBlocks b2 = none →
      lget (bs2.foldl (interiorStep cfg vps vsize sdfBlocks) p).1 b2
        = lget p.1 b2 := by
  intro bs2
  induction bs2 with
  | nil => intro p b2 _; rfl
  | cons c rest ih =>
      intro p b2 hnone
      rw [List.foldl_cons, ih _ b2 hnone]
      by_cases hc : c = b2
      · subst hc
        rw [interiorStep_eq_self _ _ _ _ _ _ (Or.inr (Or.inl hnone))]
      · exact interiorStep_fst_lget_ne _ _ _ _ p c b2 hc

theorem intFold_inv (cfg : MeshIntegratorConfig) (vps : ℕ) (vsize : ℚ)
    (sdfBlocks : List (BlockIndex × TsdfBlock)) (bs : List BlockIndex) :
    ∀ (bs2 : List BlockIndex) (p : MeshLayer × VertexLayer),
      (∀ b2 ∈ bs, ∀ e, lget p.1 b2 = some e →
        e.mesh.indices.length = e.mesh.vertices.length) →
      (∀ b2 ∈ bs, (lget p.2 b2).isSome = true) →
      (∀ b2 ∈ bs, ∀ e,
        lget (bs2.foldl (interiorStep cfg vps vsize sdfBlocks) p).1 b2 = some e →
        e.mesh.indices.length = e.mesh.vertices.length) ∧
      (∀ b2 ∈ bs,
        (lget (bs2.foldl (interiorStep cfg vps vsize sdfBlocks) p).2 b2).isSome
          = true) := by
  intro bs2
  induction bs2 with
  | nil => intro p h1 h2; exact ⟨h1, h2⟩
  | cons c rest ih =>
      intro p h1 h2
      rw [List.foldl_cons]
      apply ih
      · intro b2 hb2 e he
        by_cases hc : c = b2
        · subst hc
          rcases hh1 : lget p.1 c with _ | entry
          · rw [interiorStep_eq_self _ _ _ _ _ _ (Or.inl hh1), hh1] at he
            exact absurd he (by simp)
          · rcases hh2 : lget sdfBlocks c with _ | blk
            · rw [interiorStep_eq_self _ _ _ _ _ _ (Or.inr (Or.inl hh2)), hh1]
                at he
              have he2 : entry = e := by injection he
              rw [← he2]
              exact h1 c hb2 entry hh1
            · rcases hh3 : lget p.2 c with _ | vb
              · rw [interiorStep_eq_self _ _ _ _ _ _ (Or.inr (Or.inr hh3)), hh1]
                  at he
                have he2 : entry = e := by injection he
                rw [← he2]
                exact h1 c hb2 entry hh1
              · rw [interiorStep_eq_of_found _ _ _ _ _ _ _ _ _ hh1 hh2 hh3] at he
                rw [lget_lsetConst_self_map, hh1] at he
                rw [Option.map_some'] at he
                have he2 := Option.some.inj he
                subst he2
                exact interiorRun_lockstep cfg vps vsize blk c
                  (0, entry.mesh, vb) (h1 c hb2 entry hh1)
        · rw [interiorStep_fst_lget_ne _ _ _ _ p c b2 hc] at he
          exact h1 b2 hb2 e he
      · intro b2 hb2
        rw [interiorStep_snd_isSome]
        exact h2 b2 hb2

theorem paintedEntry_good (cfg : MeshIntegratorConfig) (vps : ℕ) (vsize : ℚ)
    (sdfBlocks : List (BlockIndex × TsdfBlock)) (sem : Option SemLayer)
    (blk : TsdfBlock) (b : BlockIndex) (entry : MeshBlock)
    (hlock : entry.mesh.indices.length = entry.mesh.vertices.length) :
    ({ (updateMeshColor cfg vps vsize sdfBlocks sem blk b entry) with
        mesh := { (updateMeshColor cfg vps vsize sdfBlocks sem blk b
          entry).mesh with updated := true } }).mesh.colors.length
      = ({ (updateMeshColor cfg vps vsize sdfBlocks sem blk b entry) with
        mesh := { (updateMeshColor cfg vps vsize sdfBlocks sem blk b
          entry).mesh with updated := true } }).mesh.vertices.length ∧
    (sem.isSome = true → ∃ l,
      ({ (updateMeshColor cfg vps vsize sdfBlocks sem blk b entry) with
        mesh := { (updateMeshColor cfg vps vsize sdfBlocks sem blk b
          entry).mesh with updated := true } }).labels = some l ∧
      l.length = ({ (updateMeshColor cfg vps vsize sdfBlocks sem blk b
        entry) with
        mesh := { (updateMeshColor cfg vps vsize sdfBlocks sem blk b
          entry).mesh with updated := true } }).mesh.vertices.length) := by
  obtain ⟨hv, hi, hu, hc, hl⟩ :=
    updateMeshColor_spec cfg vps vsize sdfBlocks sem blk b entry
  constructor
  · show (updateMeshColor cfg vps vsize sdfBlocks sem blk b
        entry).mesh.colors.length
      = (updateMeshColor cfg vps vsize sdfBlocks sem blk b
        entry).mesh.vertices.length
    rw [hc, hv, hlock]
  · intro hsem
    obtain ⟨l, hleq, hlen⟩ := hl hsem
    refine ⟨l, hleq, ?_⟩
    show l.length = (updateMeshColor cfg vps vsize sdfBlocks sem blk b
      entry).mesh.vertices.length
    rw [hv, hlen, hlock]

theorem extFold_good (cfg : MeshIntegratorConfig) (vps : ℕ) (vsize : ℚ)
    (sdfBlocks : List (BlockIndex × TsdfBlock)) (sem : Option SemLayer)
    (bs : List BlockIndex) :
    ∀ (bs2 : List BlockIndex) (p : MeshLayer × VertexLayer),
      (∀ c2 ∈ bs2, c2 ∈ bs) →
      (∀ b2 ∈ bs, ∀ e, lget p.1 b2 = some e →
        e.mesh.indices.length = e.mesh.vertices.length) →
      (∀ b2 ∈ bs, (lget p.2 b2).isSome = true) →
      (∀ b2 ∈ bs, lget sdfBlocks b2 = none → ∀ e, lget p.1 b2 = some e →
        e.mesh.colors.length = e.mesh.vertices.length ∧
        (sem.isSome = true → ∃ l, e.labels = some l ∧
          l.length = e.mesh.vertices.length)) →
      ∀ b ∈ bs,
        (b ∈ bs2 ∨ (∀ e, lget p.1 b = some e →
          e.mesh.colors.length = e.mesh.vertices.length ∧
          (sem.isSome = true → ∃ l, e.labels = some l ∧
            l.length = e.mesh.vertices.length))) →
        ∀ e, lget (bs2.foldl (exteriorStep cfg vps vsize sdfBlocks sem) p).1 b
          = some e →
          e.mesh.colors.length = e.mesh.vertices.length ∧
          (sem.isSome = true → ∃ l, e.labels = some l ∧
            l.length = e.mesh.vertices.length) := by
  intro bs2
  induction bs2 with
  | nil =>
      intro p _ _ _ _ b _ hdisj e he
      rcases hdisj with hmem | hg
      · exact absurd hmem (List.not_mem_nil b)
      · exact hg e he
  | cons c rest ih =>
      intro p hsub h1 h2 h3 b hb hdisj e he
      rw [List.foldl_cons] at he
      have hcbs : c ∈ bs := hsub c (List.mem_cons_self c rest)
      -- facts about the stepped state
      have hgoodc : ∀ e2, lget (exteriorStep cfg vps vsize sdfBlocks sem p c).1 c
          = some e2 →
          e2.mesh.colors.length = e2.mesh.vertices.length ∧
          (sem.isSome = true → ∃ l, e2.labels = some l ∧
            l.length = e2.mesh.vertices.length) := by
        intro e2 he2
        rcases hh1 : lget p.1 c with _ | entry
        · rw [exteriorStep_eq_self _ _ _ _ _ _ _ (Or.inl hh1), hh1] at he2
          exact absurd he2 (by simp)
        · rcases hh2 : lget sdfBlocks c with _ | blk
          · rw [exteriorStep_eq_self _ _ _ _ _ _ _ (Or.inr (Or.inl hh2))] at he2
            exact h3 c hcbs hh2 e2 he2
          · rcases hh3 : lget p.2 c with _ | vb
            · have := h2 c hcbs
              rw [hh3] at this
              exact absurd this (by simp)
            · rw [exteriorStep_eq_of_found _ _ _ _ _ _ _ _ _ _ hh1 hh2 hh3]
                at he2
              rw [lget_lsetConst_self_map, hh1, Option.map_some'] at he2
              have he3 := Option.some.inj he2
              subst he3
              exact paintedEntry_good cfg vps vsize sdfBlocks sem blk c
                { entry with
                  mesh := (exteriorRun cfg vps vsize sdfBlocks blk c
                    (entry.mesh.vertices.length, entry.mesh, vb)).2.1 }
                (exteriorRun_lockstep cfg vps vsize sdfBlocks blk c
                  (entry.mesh.vertices.length, entry.mesh, vb)
                  (h1 c hcbs entry hh1))
      have hI1 : ∀ b2 ∈ bs, ∀ e2,
          lget (exteriorStep cfg vps vsize sdfBlocks sem p c).1 b2 = some e2 →
          e2.mesh.indices.length = e2.mesh.vertices.length := by
        intro b2 hb2 e2 he2
        by_cases hc : c = b2
        · subst hc
          rcases hh1 : lget p.1 c with _ | entry
          · rw [exteriorStep_eq_self _ _ _ _ _ _ _ (Or.inl hh1), hh1] at he2
            exact absurd he2 (by simp)
          · rcases hh2 : lget sdfBlocks c with _ | blk
            · rw [exteriorStep_eq_self _ _ _ _ _ _ _ (Or.inr (Or.inl hh2)),
                hh1] at he2
              have heq : entry = e2 := by injection he2
              rw [← heq]
              exact h1 c hb2 entry hh1
            · rcases hh3 : lget p.2 c with _ | vb
              · rw [exteriorStep_eq_self _ _ _ _ _ _ _ (Or.inr (Or.inr hh3)),
                  hh1] at he2
                have heq : entry = e2 := by injection he2
                rw [← heq]
                exact h1 c hb2 entry hh1
              · rw [exteriorStep_eq_of_found _ _ _ _ _ _ _ _ _ _ hh1 hh2 hh3]
                  at he2
                rw [lget_lsetConst_self_map, hh1, Option.map_some'] at he2
                have he3 := Option.some.inj he2
                subst he3
                obtain ⟨hv, hi, _, _, _⟩ := updateMeshColor_spec cfg vps vsize
                  sdfBlocks sem blk c
                  { entry with
                    mesh := (exteriorRun cfg vps vsize sdfBlocks blk c
                      (entry.mesh.vertices.length, entry.mesh, vb)).2.1 }
                have hrun := exteriorRun_lockstep cfg vps vsize sdfBlocks blk c
                  (entry.mesh.vertices.length, entry.mesh, vb)
                  (h1 c hb2 entry hh1)
                show (updateMeshColor cfg vps vsize sdfBlocks sem blk c
                  { entry with
                    mesh := (exteriorRun cfg vps vsize sdfBlocks blk c
                      (entry.mesh.vertices.length, entry.mesh,
                        vb)).2.1 }).mesh.indices.length
                  = (updateMeshColor cfg vps vsize sdfBlocks sem blk c
                    { entry with
                      mesh := (exteriorRun cfg vps vsize sdfBlocks blk c
                        (entry.mesh.vertices.length, entry.mesh,
                          vb)).2.1 }).mesh.vertices.length
                rw [hv, hi]
                exact hrun
        · rw [exteriorStep_fst_lget_ne _ _ _ _ _ p c b2 hc] at he2
          exact h1 b2 hb2 e2 he2
      have hI2 : ∀ b2 ∈ bs,
          (lget (exteriorStep cfg vps vsize sdfBlocks sem p c).2 b2).isSome
            = true := by
        intro b2 hb2
        rw [exteriorStep_snd_isSome]
        exact h2 b2 hb2
      have hI3 : ∀ b2 ∈ bs, lget sdfBlocks b2 = none → ∀ e2,
          lget (exteriorStep cfg vps vsize sdfBlocks sem p c).1 b2 = some e2 →
          e2.mesh.colors.length = e2.mesh.vertices.length ∧
          (sem.isSome = true → ∃ l, e2.labels = some l ∧
            l.length = e2.mesh.vertices.length) := by
        intro b2 hb2 hnone e2 he2
        by_cases hc : c = b2
        · subst hc
          rw [exteriorStep_eq_self _ _ _ _ _ _ _ (Or.inr (Or.inl hnone))] at he2
          exact h3 c hb2 hnone e2 he2
        · rw [exteriorStep_fst_lget_ne _ _ _ _ _ p c b2 hc] at he2
          exact h3 b2 hb2 hnone e2 he2
      refine ih (exteriorStep cfg vps vsize sdfBlocks sem p c)
        (fun c2 hc2 => hsub c2 (List.mem_cons_of_mem c hc2)) hI1 hI2 hI3
        b hb ?_ e he
      by_cases hbc : c = b
      · subst hbc
        exact Or.inr hgoodc
      · rcases hdisj with hmem | hg
        · rcases List.mem_cons.mp hmem with heq | hmem2
          · exact absurd heq.symm hbc
          · exact Or.inl hmem2
        · refine Or.inr ?_
          intro e2 he2
          rw [exteriorStep_fst_lget_ne _ _ _ _ _ p c b hbc] at he2
          exact hg e2 he2

theorem pipeline_colors_good (cfg : MeshIntegratorConfig) (vps : ℕ)
    (vsize : ℚ) (sdfBlocks : List (BlockIndex × TsdfBlock))
    (sem : Option SemLayer) (bs : List BlockIndex) (M : MeshLayer)
    (V : VertexLayer) :
    ∀ b ∈ bs, ∀ e,
      lget (bs.foldl (exteriorStep cfg vps vsize sdfBlocks sem)
        (bs.foldl (interiorStep cfg vps vsize sdfBlocks)
          (setupPhase sem.isSome (M, V) bs))).1 b = some e →
      e.mesh.colors.length = e.mesh.vertices.length ∧
      (sem.isSome = true → ∃ l, e.labels = some l ∧
        l.length = e.mesh.vertices.length) := by
  intro b hb e he
  have hp1m : ∀ b2 ∈ bs,
      lget (setupPhase sem.isSome (M, V) bs).1 b2
        = some (clearedMeshEntry sem.isSome) := by
    intro b2 hb2
    rw [setupPhase_eq]
    exact allocFold_lget_mem _ _ _ _ hb2
  have hp1v : ∀ b2 ∈ bs,
      lget (setupPhase sem.isSome (M, V) bs).2 b2 = some emptyVertexBlock := by
    intro b2 hb2
    rw [setupPhase_eq]
    exact allocFold_lget_mem _ _ _ _ hb2
  have hI1p1 : ∀ b2 ∈ bs, ∀ e2,
      lget (setupPhase sem.isSome (M, V) bs).1 b2 = some e2 →
      e2.mesh.indices.length = e2.mesh.vertices.length := by
    intro b2 hb2 e2 he2
    rw [hp1m b2 hb2] at he2
    have heq := Option.some.inj he2
    rw [← heq]
    rfl
  have hI2p1 : ∀ b2 ∈ bs,
      (lget (setupPhase sem.isSome (M, V) bs).2 b2).isSome = true := by
    intro b2 hb2
    rw [hp1v b2 hb2]
    rfl
  have hI3p1 : ∀ b2 ∈ bs, lget sdfBlocks b2 = none → ∀ e2,
      lget (setupPhase sem.isSome (M, V) bs).1 b2 = some e2 →
      e2.mesh.colors.length = e2.mesh.vertices.length ∧
      (sem.isSome = true → ∃ l, e2.labels = some l ∧
        l.length = e2.mesh.vertices.length) := by
    intro b2 hb2 _ e2 he2
    rw [hp1m b2 hb2] at he2
    have heq := Option.some.inj he2
    rw [← heq]
    refine ⟨rfl, ?_⟩
    intro hsem
    refine ⟨[], ?_, rfl⟩
    show (if sem.isSome then some ([] : List ℕ) else none) = some []
    rw [hsem]
    rfl
  obtain ⟨hI1p2, hI2p2⟩ := intFold_inv cfg vps vsize sdfBlocks bs bs
    (setupPhase sem.isSome (M, V) bs) hI1p1 hI2p1
  have hI3p2 : ∀ b2 ∈ bs, lget sdfBlocks b2 = none → ∀ e2,
      lget (bs.foldl (interiorStep cfg vps vsize sdfBlocks)
        (setupPhase sem.isSome (M, V) bs)).1 b2 = some e2 →
      e2.mesh.colors.length = e2.mesh.vertices.length ∧
      (sem.isSome = true → ∃ l, e2.labels = some l ∧
        l.length = e2.mesh.vertices.length) := by
    intro b2 hb2 hnone e2 he2
    rw [intFold_sdfnone cfg vps vsize sdfBlocks bs _ b2 hnone] at he2
    exact hI3p1 b2 hb2 hnone e2 he2
  exact extFold_good cfg vps vsize sdfBlocks sem bs bs
    (bs.foldl (interiorStep cfg vps vsize sdfBlocks)
      (setupPhase sem.isSome (M, V) bs))
    (fun c2 hc2 => hc2) hI1p2 hI2p2 hI3p2 b hb (Or.inl hb) e he

theorem generateMesh_mesh_eq (cfg : MeshIntegratorConfig)
    (sem : Option SemLayer) (st : IntState) (ou cf : Bool) :
    (generateMesh cfg sem st ou cf).mesh =
      ((candidateBlocks st.sdf ou).foldl
        (exteriorStep cfg st.sdf.vps st.sdf.vsize st.sdf.blocks sem)
        ((candidateBlocks st.sdf ou).foldl
          (interiorStep cfg st.sdf.vps st.sdf.vsize st.sdf.blocks)
          (setupPhase sem.isSome (st.mesh, st.vertex)
            (candidateBlocks st.sdf ou)))).1 := rfl

theorem generateMesh_vertex_eq (cfg : MeshIntegratorConfig)
    (sem : Option SemLayer) (st : IntState) (ou cf : Bool) :
    (generateMesh cfg sem st ou cf).vertex =
      ((candidateBlocks st.sdf ou).foldl
        (exteriorStep cfg st.sdf.vps st.sdf.vsize st.sdf.blocks sem)
        ((candidateBlocks st.sdf ou).foldl
          (interiorStep cfg st.sdf.vps st.sdf.vsize st.sdf.blocks)
          (setupPhase sem.isSome (st.mesh, st.vertex)
            (candidateBlocks st.sdf ou)))).2 := rfl

theorem foldl_range_write_get {γ : Type} (step : List γ → ℕ → List γ)
    (hstep : ∀ acc j, step acc j = acc ∨ ∃ v, step acc j = acc.set j v)
    (i : ℕ) (w : γ) (hw : ∀ acc, step acc i = acc.set i w) :
    ∀ (m : ℕ) (acc : List γ), i < m → i < acc.length →
      ((List.range m).foldl step acc)[i]? = some w := by
  intro m
  induction m with
  | zero => intro acc h _; exact absurd h (Nat.not_lt_zero i)
  | succ m ih =>
      intro acc him hia
      rw [List.range_succ, List.foldl_append, List.foldl_cons, List.foldl_nil]
      by_cases hi : i = m
      · subst hi
        rw [hw]
        apply List.getElem?_set_self
        rw [foldl_set_or_id_length step hstep]
        exact hia
      · rcases hstep ((List.range m).foldl step acc) m with h | ⟨v, h⟩
        · rw [h]
          exact ih acc (by omega) hia
        · rw [h, List.getElem?_set_ne (fun he => hi he.symm)]
          exact ih acc (by omega) hia

theorem updateMeshColor_label_written (cfg : MeshIntegratorConfig) (vps : ℕ)
    (vsize : ℚ) (sdfBlocks : List (BlockIndex × TsdfBlock)) (semL : SemLayer)
    (blk : TsdfBlock) (b : BlockIndex) (entry : MeshBlock) (i : ℕ) (p : Point)
    (lab : ℕ) (hp : entry.mesh.vertices[i]? = some p)
    (hn : i < entry.mesh.indices.length)
    (hlab : vertexSemanticLabel vps vsize sdfBlocks (some semL) blk b p
      = some lab) :
    ∃ l, (updateMeshColor cfg vps vsize sdfBlocks (some semL) blk b
      entry).labels = some l ∧ l[i]? = some lab := by
  refine ⟨_, rfl, ?_⟩
  have him : i < entry.mesh.vertices.length := by
    obtain ⟨hh, _⟩ := List.getElem?_eq_some.mp hp
    exact hh
  apply foldl_range_write_get _ ?_ i lab ?_ entry.mesh.vertices.length _ him
  · rw [vecResize_length]
    exact hn
  · intro acc j
    cases h1 : entry.mesh.vertices[j]? with
    | none => exact Or.inl (by simp [h1])
    | some q =>
        cases h2 : (vertexVoxelLookup vps vsize sdfBlocks (some semL)
            blk b q).2 with
        | none => exact Or.inl (by simp [h1, h2])
        | some lab2 => exact Or.inr ⟨lab2, by simp [h1, h2]⟩
  · intro acc
    have hlab2 : (vertexVoxelLookup vps vsize sdfBlocks (some semL) blk b
        p).2 = some lab := hlab
    simp [hp, hlab2]

/-- C2: after `generateMesh`, every candidate block's mesh entry has exactly as
many colors as vertices (and, when a semantic layer is configured, a label
sequence of the same length); and `updateMeshColor` writes the label looked up
for a vertex at the same position the vertex occupies. -/
theorem mesh_colors_parallel_to_vertices (cfg : MeshIntegratorConfig)
    (sem : Option SemLayer) (st : IntState) (ou cf : Bool) :
    (∀ b ∈ candidateBlocks st.sdf ou, ∀ e,
      lget (generateMesh cfg sem st ou cf).mesh b = some e →
      e.mesh.colors.length = e.mesh.vertices.length ∧
      (sem.isSome = true → ∃ l, e.labels = some l ∧
        l.length = e.mesh.vertices.length)) ∧
    (∀ (vps2 : ℕ) (vsize2 : ℚ) (sdfBlocks2 : List (BlockIndex × TsdfBlock))
      (semL : SemLayer) (blk : TsdfBlock) (b : BlockIndex) (entry : MeshBlock)
      (i : ℕ) (p : Point) (lab : ℕ),
      entry.mesh.vertices[i]? = some p →
      i < entry.mesh.indices.length →
      vertexSemanticLabel vps2 vsize2 sdfBlocks2 (some semL) blk b p
        = some lab →
      ∃ l, (updateMeshColor cfg vps2 vsize2 sdfBlocks2 (some semL) blk b
        entry).labels = some l ∧ l[i]? = some lab) := by
  constructor
  · intro b hb e he
    rw [generateMesh_mesh_eq] at he
    exact pipeline_colors_good cfg st.sdf.vps st.sdf.vsize st.sdf.blocks sem
      (candidateBlocks st.sdf ou) st.mesh st.vertex b hb e he
  · intro vps2 vsize2 sdfBlocks2 semL blk b entry i p lab hp hn hlab
    exact updateMeshColor_label_written cfg vps2 vsize2 sdfBlocks2 semL blk b
      entry i p lab hp hn hlab

/-- Witness for C2 at concrete inputs: a remeshed all-invalid block yields an
empty entry with matching lengths, and `updateMeshColor` writes the label of
the single vertex at position 0. -/
theorem mesh_colors_parallel_to_vertices_witness :
    ((⟨⟨[], [], [], true⟩, none⟩ : MeshBlock).mesh.colors.length
        = (⟨⟨[], [], [], true⟩, none⟩ : MeshBlock).mesh.vertices.length ∧
      ((none : Option SemLayer).isSome = true → ∃ l,
        (⟨⟨[], [], [], true⟩, none⟩ : MeshBlock).labels = some l ∧
        l.length
          = (⟨⟨[], [], [], true⟩, none⟩ : MeshBlock).mesh.vertices.length)) ∧
    (∃ l, (updateMeshColor ⟨1, 2⟩ 1 1 [((0, 0, 0), fun _ => ⟨0, 2, 7⟩)]
        (some [((0, 0, 0), fun _ => 5)]) (fun _ => ⟨0, 2, 7⟩) (0, 0, 0)
        ⟨⟨[(0, 0, 0)], [0], [0], false⟩, some []⟩).labels = some l ∧
      l[0]? = some 5) := by
  have T := mesh_colors_parallel_to_vertices ⟨1, 2⟩ none
    (IntState.mk (TsdfLayer.mk 1 1 [((0, 0, 0), fun _ => ⟨0, 0, 0⟩)] []) [] [])
    false true
  refine ⟨T.1 (0, 0, 0) (by decide) ⟨⟨[], [], [], true⟩, none⟩ (by decide), ?_⟩
  have hvi : computeVoxelIndexFromCoordinates (0, 0, 0) 1 1 (0, 0, 0)
      = ((0 : ℤ), (0 : ℤ), (0 : ℤ)) := by
    have hq : ∀ q : ℚ, q.floor = ⌊q⌋ := fun _ => rfl
    unfold computeVoxelIndexFromCoordinates pscale intPoint
    simp only [hq]
    norm_num [Prod.mk.injEq]
  have hlab : vertexSemanticLabel 1 1 [((0, 0, 0), fun _ => ⟨0, 2, 7⟩)]
      (some [((0, 0, 0), fun _ => 5)]) (fun _ => ⟨0, 2, 7⟩) (0, 0, 0) (0, 0, 0)
      = some 5 := by
    unfold vertexSemanticLabel vertexVoxelLookup
    rw [hvi]
    rw [if_pos (by decide : isValidVoxelIndex 1 ((0 : ℤ), (0 : ℤ), (0 : ℤ)))]
    rfl
  exact T.2 1 1 [((0, 0, 0), fun _ => ⟨0, 2, 7⟩)] [((0, 0, 0), fun _ => 5)]
    (fun _ => ⟨0, 2, 7⟩) (0, 0, 0) ⟨⟨[(0, 0, 0)], [0], [0], false⟩, some []⟩
    0 (0, 0, 0) 5 (by decide) (by decide) hlab

/-! ### Lemmas for C6: the setup fold and the key relation -/

theorem hasKey_of_lget_isSome {α : Type} (l : List (BlockIndex × α))
    (b : BlockIndex) (h : (lget l b).isSome = true) : hasKey l b = true := by
  induction l with
  | nil => simp [lget] at h
  | cons p rest ih =>
      simp only [lget] at h
      simp only [hasKey, List.any_cons, Bool.or_eq_true, decide_eq_true_eq]
      by_cases hp : p.1 = b
      · exact Or.inl hp
      · rw [if_neg hp] at h
        exact Or.inr (by simpa [hasKey] using ih h)

theorem forall₂_keyRel_refl {α : Type} (bs : List BlockIndex)
    (X : List (BlockIndex × α)) : List.Forall₂ (KeyRel bs) X X := by
  induction X with
  | nil => exact List.Forall₂.nil
  | cons p rest ih => exact List.Forall₂.cons ⟨rfl, fun _ => rfl⟩ ih

theorem forall₂_keyRel_nil {α : Type} (X Y : List (BlockIndex × α))
    (h : List.Forall₂ (KeyRel []) X Y) : X = Y := by
  induction h with
  | nil => rfl
  | @cons p q tX tY hpq htail ih =>
      obtain ⟨hk, hv⟩ := hpq
      rw [ih, show p = q from Prod.ext hk (hv (List.not_mem_nil _))]

theorem forall₂_keyRel_hasKey {α : Type} (bs : List BlockIndex)
    (X Y : List (BlockIndex × α)) (k : BlockIndex)
    (h : List.Forall₂ (KeyRel bs) X Y) : hasKey X k = hasKey Y k := by
  induction h with
  | nil => rfl
  | cons hpq _ ih =>
      simp only [hasKey, List.any_cons] at *
      rw [hpq.1, ih]

theorem keyRel_cons_lset {α : Type} (b : BlockIndex) (rest : List BlockIndex)
    (cl : α) (X Y : List (BlockIndex × α))
    (h : List.Forall₂ (KeyRel (b :: rest)) X Y) :
    List.Forall₂ (KeyRel rest) (lsetConst X b cl) (lsetConst Y b cl) := by
  induction h with
  | nil => exact List.Forall₂.nil
  | @cons p q tX tY hpq htail ih =>
      simp only [lsetConst, List.map_cons]
      refine List.Forall₂.cons ?_ ih
      by_cases hp : p.1 = b
      · have hq : q.1 = b := hpq.1 ▸ hp
        rw [if_pos hp, if_pos hq]
        exact ⟨hp.trans hq.symm, fun _ => rfl⟩
      · have hq : ¬ q.1 = b := fun he => hp (hpq.1.trans he)
        rw [if_neg hp, if_neg hq]
        refine ⟨hpq.1, fun hnr => ?_⟩
        exact hpq.2 (by
          intro hmem
          rcases List.mem_cons.mp hmem with he | he
          · exact hp he
          · exact hnr he)

theorem hasKey_eq_false_forall {α : Type} (X : List (BlockIndex × α))
    (b : BlockIndex) (h : hasKey X b = false) : ∀ p ∈ X, p.1 ≠ b := by
  intro p hp he
  have : hasKey X b = true := by
    unfold hasKey
    rw [List.any_eq_true]
    exact ⟨p, hp, by simp [he]⟩
  rw [this] at h
  exact absurd h (by simp)

theorem keyRel_cons_weaken {α : Type} (b : BlockIndex) (rest : List BlockIndex)
    (X Y : List (BlockIndex × α)) (hX : ∀ p ∈ X, p.1 ≠ b)
    (h : List.Forall₂ (KeyRel (b :: rest)) X Y) :
    List.Forall₂ (KeyRel rest) X Y := by
  induction h with
  | nil => exact List.Forall₂.nil
  | @cons p q tX tY hpq htail ih =>
      refine List.Forall₂.cons ⟨hpq.1, fun hnr => ?_⟩
        (ih (fun p2 hp2 => hX p2 (List.mem_cons_of_mem p hp2)))
      refine hpq.2 ?_
      intro hmem
      rcases List.mem_cons.mp hmem with he | he
      · exact hX p (List.mem_cons_self p tX) he
      · exact hnr he

theorem keyRel_allocSet_step {α : Type} (b : BlockIndex)
    (rest : List BlockIndex) (cl : α) (X Y : List (BlockIndex × α))
    (h : List.Forall₂ (KeyRel (b :: rest)) X Y) :
    List.Forall₂ (KeyRel rest) (allocSet X b cl) (allocSet Y b cl) := by
  unfold allocSet
  rw [← forall₂_keyRel_hasKey _ X Y b h]
  by_cases hk : hasKey X b
  · rw [if_pos hk, if_pos hk]
    exact keyRel_cons_lset b rest cl X Y h
  · rw [if_neg hk, if_neg hk]
    refine List.rel_append ?_ (List.Forall₂.cons ⟨rfl, fun _ => rfl⟩
      List.Forall₂.nil)
    exact keyRel_cons_weaken b rest X Y
      (hasKey_eq_false_forall X b (Bool.of_not_eq_true hk)) h

theorem allocFold_congr {α : Type} (cl : α) :
    ∀ (bs : List BlockIndex) (X Y : List (BlockIndex × α)),
      List.Forall₂ (KeyRel bs) X Y → allocFold cl X bs = allocFold cl Y bs := by
  intro bs
  induction bs with
  | nil => intro X Y h; exact forall₂_keyRel_nil X Y h
  | cons b rest ih =>
      intro X Y h
      exact ih (allocSet X b cl) (allocSet Y b cl)
        (keyRel_allocSet_step b rest cl X Y h)

theorem allocSet_clean_at {α : Type} (X : List (BlockIndex × α))
    (b : BlockIndex) (cl : α) :
    ∀ p ∈ allocSet X b cl, p.1 = b → p.2 = cl := by
  intro p hp hpb
  unfold allocSet at hp
  by_cases hk : hasKey X b
  · rw [if_pos hk] at hp
    unfold lsetConst at hp
    rw [List.mem_map] at hp
    obtain ⟨q, _, hq⟩ := hp
    by_cases hqb : q.1 = b
    · rw [if_pos hqb] at hq
      rw [← hq]
    · rw [if_neg hqb] at hq
      rw [← hq] at hpb
      exact absurd hpb hqb
  · rw [if_neg hk] at hp
    rcases List.mem_append.mp hp with hmem | hmem
    · exact absurd hpb (hasKey_eq_false_forall X b (Bool.of_not_eq_true hk)
        p hmem)
    · rcases List.mem_singleton.mp hmem with rfl
      rfl

theorem allocSet_preserves_clean {α : Type} (X : List (BlockIndex × α))
    (c k : BlockIndex) (cl : α) (h : ∀ p ∈ X, p.1 = k → p.2 = cl) :
    ∀ p ∈ allocSet X c cl, p.1 = k → p.2 = cl := by
  intro p hp hpk
  unfold allocSet at hp
  by_cases hc : hasKey X c
  · rw [if_pos hc] at hp
    unfold lsetConst at hp
    rw [List.mem_map] at hp
    obtain ⟨q, hqm, hq⟩ := hp
    by_cases hqc : q.1 = c
    · rw [if_pos hqc] at hq
      rw [← hq]
    · rw [if_neg hqc] at hq
      rw [← hq] at hpk ⊢
      exact h q hqm hpk
  · rw [if_neg hc] at hp
    rcases List.mem_append.mp hp with hmem | hmem
    · exact h p hmem hpk
    · rcases List.mem_singleton.mp hmem with rfl
      rfl

theorem allocFold_clean {α : Type} (cl : α) :
    ∀ (bs : List BlockIndex) (X : List (BlockIndex × α)),
      ∀ p ∈ allocFold cl X bs, p.1 ∈ bs → p.2 = cl := by
  intro bs
  induction bs with
  | nil => intro X p _ hmem; exact absurd hmem (List.not_mem_nil _)
  | cons b rest ih =>
      intro X p hp hmem
      rcases List.mem_cons.mp hmem with he | he
      · -- key b positions are clean after the b step and stay clean
        have hstep : ∀ q ∈ allocSet X b cl, q.1 = b → q.2 = cl :=
          allocSet_clean_at X b cl
        have hkeep : ∀ (bs2 : List BlockIndex) (Z : List (BlockIndex × α)),
            (∀ q ∈ Z, q.1 = b → q.2 = cl) →
            ∀ q ∈ allocFold cl Z bs2, q.1 = b → q.2 = cl := by
          intro bs2
          induction bs2 with
          | nil => intro Z hZ q hq; exact hZ q hq
          | cons c rest2 ih2 =>
              intro Z hZ q hq
              exact ih2 (allocSet Z c cl)
                (allocSet_preserves_clean Z c b cl hZ) q hq
        exact hkeep rest (allocSet X b cl) hstep p hp he
      · exact ih (allocSet X b cl) p hp he

theorem lsetConst_id_of_clean {α : Type} (X : List (BlockIndex × α))
    (b : BlockIndex) (cl : α) (h : ∀ p ∈ X, p.1 = b → p.2 = cl) :
    lsetConst X b cl = X := by
  induction X with
  | nil => rfl
  | cons p rest ih =>
      simp only [lsetConst, List.map_cons]
      have htail : lsetConst rest b cl = rest :=
        ih (fun q hq => h q (List.mem_cons_of_mem p hq))
      unfold lsetConst at htail
      rw [htail]
      by_cases hp : p.1 = b
      · rw [if_pos hp]
        have hpc : (p.1, cl) = p := by
          rw [← h p (List.mem_cons_self p rest) hp]
        rw [hpc]
      · rw [if_neg hp]

theorem allocFold_id_of_clean {α : Type} (cl : α) :
    ∀ (bs : List BlockIndex) (X : List (BlockIndex × α)),
      (∀ b ∈ bs, hasKey X b = true) → (∀ p ∈ X, p.1 ∈ bs → p.2 = cl) →
      allocFold cl X bs = X := by
  intro bs
  induction bs with
  | nil => intro X _ _; rfl
  | cons b rest ih =>
      intro X hkeys hclean
      have hkb : hasKey X b = true := hkeys b (List.mem_cons_self b rest)
      have hstep : allocSet X b cl = X := by
        unfold allocSet
        rw [if_pos hkb]
        exact lsetConst_id_of_clean X b cl
          (fun p hp hpb => hclean p hp (hpb ▸ List.mem_cons_self b rest))
      show allocFold cl (allocSet X b cl) rest = X
      rw [hstep]
      exact ih X (fun c hc => hkeys c (List.mem_cons_of_mem b hc))
        (fun p hp hmem => hclean p hp (List.mem_cons_of_mem b hmem))

theorem allocFold_idem {α : Type} (cl : α) (bs : List BlockIndex)
    (X : List (BlockIndex × α)) :
    allocFold cl (allocFold cl X bs) bs = allocFold cl X bs := by
  apply allocFold_id_of_clean
  · intro b hb
    exact hasKey_of_lget_isSome _ b
      (by rw [allocFold_lget_mem cl bs X b hb]; rfl)
  · exact allocFold_clean cl bs X

theorem keyRel_lsetConst_mem {α : Type} (bs : List BlockIndex) (b : BlockIndex)
    (hb : b ∈ bs) (v : α) (X Y : List (BlockIndex × α))
    (h : List.Forall₂ (KeyRel bs) X Y) :
    List.Forall₂ (KeyRel bs) (lsetConst X b v) Y := by
  induction h with
  | nil => exact List.Forall₂.nil
  | @cons p q tX tY hpq htail ih =>
      simp only [lsetConst, List.map_cons]
      refine List.Forall₂.cons ?_ ih
      by_cases hp : p.1 = b
      · rw [if_pos hp]
        exact ⟨hpq.1, fun hnmem => absurd (hp ▸ hb) hnmem⟩
      · rw [if_neg hp]
        exact hpq

theorem relFold_pair {α β : Type} (bs : List BlockIndex)
    (step : List (BlockIndex × α) × List (BlockIndex × β) → BlockIndex →
      List (BlockIndex × α) × List (BlockIndex × β))
    (hshape : ∀ p b, b ∈ bs →
      ((∃ m v, step p b = (lsetConst p.1 b m, lsetConst p.2 b v)) ∨
        step p b = p)) :
    ∀ (bs2 : List BlockIndex), (∀ c ∈ bs2, c ∈ bs) →
    ∀ (p : List (BlockIndex × α) × List (BlockIndex × β))
      (Y1 : List (BlockIndex × α)) (Y2 : List (BlockIndex × β)),
      List.Forall₂ (KeyRel bs) p.1 Y1 → List.Forall₂ (KeyRel bs) p.2 Y2 →
      List.Forall₂ (KeyRel bs) (bs2.foldl step p).1 Y1 ∧
      List.Forall₂ (KeyRel bs) (bs2.foldl step p).2 Y2 := by
  intro bs2
  induction bs2 with
  | nil => intro _ p Y1 Y2 h1 h2; exact ⟨h1, h2⟩
  | cons c rest ih =>
      intro hsub p Y1 Y2 h1 h2
      rw [List.foldl_cons]
      have hc : c ∈ bs := hsub c (List.mem_cons_self c rest)
      have hsub2 : ∀ c2 ∈ rest, c2 ∈ bs :=
        fun c2 hc2 => hsub c2 (List.mem_cons_of_mem c hc2)
      rcases hshape p c hc with ⟨m, v, heq⟩ | heq
      · rw [heq]
        exact ih hsub2 _ Y1 Y2
          (keyRel_lsetConst_mem bs c hc m p.1 Y1 h1)
          (keyRel_lsetConst_mem bs c hc v p.2 Y2 h2)
      · rw [heq]
        exact ih hsub2 p Y1 Y2 h1 h2

theorem interiorStep_shape (cfg : MeshIntegratorConfig) (vps : ℕ) (vsize : ℚ)
    (sdfBlocks : List (BlockIndex × TsdfBlock)) (p : MeshLayer × VertexLayer)
    (b : BlockIndex) :
    (∃ m v, interiorStep cfg vps vsize sdfBlocks p b =
      (lsetConst p.1 b m, lsetConst p.2 b v)) ∨
    interiorStep cfg vps vsize sdfBlocks p b = p := by
  rcases h1 : lget p.1 b with _ | entry
  · exact Or.inr (interiorStep_eq_self _ _ _ _ _ _ (Or.inl h1))
  · rcases h2 : lget sdfBlocks b with _ | blk
    · exact Or.inr (interiorStep_eq_self _ _ _ _ _ _ (Or.inr (Or.inl h2)))
    · rcases h3 : lget p.2 b with _ | vb
      · exact Or.inr (interiorStep_eq_self _ _ _ _ _ _ (Or.inr (Or.inr h3)))
      · exact Or.inl ⟨_, _,
          interiorStep_eq_of_found _ _ _ _ _ _ _ _ _ h1 h2 h3⟩

theorem exteriorStep_shape (cfg : MeshIntegratorConfig) (vps : ℕ) (vsize : ℚ)
    (sdfBlocks : List (BlockIndex × TsdfBlock)) (sem : Option SemLayer)
    (p : MeshLayer × VertexLayer) (b : BlockIndex) :
    (∃ m v, exteriorStep cfg vps vsize sdfBlocks sem p b =
      (lsetConst p.1 b m, lsetConst p.2 b v)) ∨
    exteriorStep cfg vps vsize sdfBlocks sem p b = p := by
  rcases h1 : lget p.1 b with _ | entry
  · exact Or.inr (exteriorStep_eq_self _ _ _ _ _ _ _ (Or.inl h1))
  · rcases h2 : lget sdfBlocks b with _ | blk
    · exact Or.inr (exteriorStep_eq_self _ _ _ _ _ _ _ (Or.inr (Or.inl h2)))
    · rcases h3 : lget p.2 b with _ | vb
      · exact Or.inr (exteriorStep_eq_self _ _ _ _ _ _ _ (Or.inr (Or.inr h3)))
      · exact Or.inl ⟨_, _,
          exteriorStep_eq_of_found _ _ _ _ _ _ _ _ _ _ h1 h2 h3⟩

theorem pipeline_idempotent_setup (cfg : MeshIntegratorConfig) (vps : ℕ)
    (vsize : ℚ) (sdfBlocks : List (BlockIndex × TsdfBlock))
    (sem : Option SemLayer) (bs : List BlockIndex) (M : MeshLayer)
    (V : VertexLayer) :
    setupPhase sem.isSome
      ((bs.foldl (exteriorStep cfg vps vsize sdfBlocks sem)
        (bs.foldl (interiorStep cfg vps vsize sdfBlocks)
          (setupPhase sem.isSome (M, V) bs))).1,
       (bs.foldl (exteriorStep cfg vps vsize sdfBlocks sem)
        (bs.foldl (interiorStep cfg vps vsize sdfBlocks)
          (setupPhase sem.isSome (M, V) bs))).2) bs
    = setupPhase sem.isSome (M, V) bs := by
  have hrel1 := relFold_pair bs (interiorStep cfg vps vsize sdfBlocks)
    (fun p b _ => interiorStep_shape cfg vps vsize sdfBlocks p b)
    bs (fun c hc => hc) (setupPhase sem.isSome (M, V) bs)
    (setupPhase sem.isSome (M, V) bs).1 (setupPhase sem.isSome (M, V) bs).2
    (forall₂_keyRel_refl bs _) (forall₂_keyRel_refl bs _)
  have hrel2 := relFold_pair bs (exteriorStep cfg vps vsize sdfBlocks sem)
    (fun p b _ => exteriorStep_shape cfg vps vsize sdfBlocks sem p b)
    bs (fun c hc => hc)
    (bs.foldl (interiorStep cfg vps vsize sdfBlocks)
      (setupPhase sem.isSome (M, V) bs))
    (setupPhase sem.isSome (M, V) bs).1 (setupPhase sem.isSome (M, V) bs).2
    hrel1.1 hrel1.2
  have hm : allocFold (clearedMeshEntry sem.isSome)
      (bs.foldl (exteriorStep cfg vps vsize sdfBlocks sem)
        (bs.foldl (interiorStep cfg vps vsize sdfBlocks)
          (setupPhase sem.isSome (M, V) bs))).1 bs
      = allocFold (clearedMeshEntry sem.isSome) M bs := by
    have hcongr := allocFold_congr (clearedMeshEntry sem.isSome) bs _ _ hrel2.1
    rw [hcongr, setupPhase_eq sem.isSome bs M V]
    exact allocFold_idem (clearedMeshEntry sem.isSome) bs M
  have hv : allocFold emptyVertexBlock
      (bs.foldl (exteriorStep cfg vps vsize sdfBlocks sem)
        (bs.foldl (interiorStep cfg vps vsize sdfBlocks)
          (setupPhase sem.isSome (M, V) bs))).2 bs
      = allocFold emptyVertexBlock V bs := by
    have hcongr := allocFold_congr emptyVertexBlock bs _ _ hrel2.2
    rw [hcongr, setupPhase_eq sem.isSome bs M V]
    exact allocFold_idem emptyVertexBlock bs V
  rw [setupPhase_eq]
  rw [hm, hv]
  rw [setupPhase_eq sem.isSome bs M V]

/-! ### C6: idempotence of a full remesh -/

/-- C6: calling `generateMesh(only_updated := false, clear_flag := true)` twice
in succession with no intervening mutation of the distance field or the
semantic layer produces identical mesh-store contents (vertices, triangle
indices, colors and labels) after each of the two calls. -/
theorem generateMesh_idempotent (cfg : MeshIntegratorConfig)
    (sem : Option SemLayer) (st : IntState) :
    (generateMesh cfg sem (generateMesh cfg sem st false true) false true).mesh
      = (generateMesh cfg sem st false true).mesh := by
  have hsdfeq := generateMesh_sdf cfg sem st false true
  have hfold := clearFold_blocks (candidateBlocks st.sdf false) st.sdf
  have hb : (generateMesh cfg sem st false true).sdf.blocks
      = st.sdf.blocks := by
    rw [hsdfeq, if_pos rfl]
    exact hfold.1
  have hvps : (generateMesh cfg sem st false true).sdf.vps = st.sdf.vps := by
    rw [hsdfeq, if_pos rfl]
    exact hfold.2.1
  have hvsize : (generateMesh cfg sem st false true).sdf.vsize
      = st.sdf.vsize := by
    rw [hsdfeq, if_pos rfl]
    exact hfold.2.2
  have hcand : candidateBlocks (generateMesh cfg sem st false true).sdf false
      = candidateBlocks st.sdf false := by
    show (generateMesh cfg sem st false true).sdf.blocks.map Prod.fst
      = st.sdf.blocks.map Prod.fst
    rw [hb]
  rw [generateMesh_mesh_eq cfg sem (generateMesh cfg sem st false true)
    false true, hcand, hb, hvps, hvsize,
    generateMesh_mesh_eq cfg sem st false true,
    generateMesh_vertex_eq cfg sem st false true]
  rw [pipeline_idempotent_setup cfg st.sdf.vps st.sdf.vsize st.sdf.blocks sem
    (candidateBlocks st.sdf false) st.mesh st.vertex]

end Hydra
